import Mathlib

/-!
Verification of the cycle-time derivation and statistical aggregation engine
of the performance-dashboard repository (scripts/collect_jira.py and
scripts/aggregate.py), shallowly embedded in Lean 4.

Conventions of the embedding:
* Python floats are modelled as exact rationals (`ℚ`).
* Timestamps (`datetime`) are modelled as rational numbers of seconds;
  `(t2 - t1).total_seconds() / 3600` becomes `(t2 - t1) / 3600`.
* Python dicts are modelled as association lists with Python's update
  semantics: assigning to an existing key replaces its value in place,
  assigning to a new key appends it at the end (`dset` below).
* `datetime.now(timezone.utc)` is modelled as an explicit `now` parameter
  threaded through the functions that call it.
* `round(x, n)` is modelled as decimal round-half-to-even (`round2`,
  `round1`), matching Python's documented rounding of exact decimal values.
-/

namespace Dashboard

/-- Lookup in an association list: first binding of the key, like a
Python dict read (our dicts never hold a key twice). -/
def dget {α : Type _} : List (String × α) → String → Option α
  | [], _ => none
  | (a, b) :: t, k => if a = k then some b else dget t k

/-- `d.get(k, v)` on a Python dict. -/
def dgetD {α : Type _} (d : List (String × α)) (k : String) (v : α) : α :=
  (dget d k).getD v

/-- `k in d` on a Python dict. -/
def dcontains {α : Type _} (d : List (String × α)) (k : String) : Bool :=
  (dget d k).isSome

/-- `d[k] = v` on a Python dict: replace the binding in place if the key
exists, else append the new binding at the end. -/
def dset {α : Type _} : List (String × α) → String → α → List (String × α)
  | [], k, v => [(k, v)]
  | (a, b) :: t, k, v => if a = k then (k, v) :: t else (a, b) :: dset t k v

/-- `d[k] = d.get(k, 0.0) + v`, the accumulation step used by
`compute_phase_durations`. -/
def dadd (d : List (String × ℚ)) (k : String) (v : ℚ) : List (String × ℚ) :=
  dset d k ((dget d k).getD 0 + v)

/-- Sum of all values of the dictionary. -/
def sumValues (d : List (String × ℚ)) : ℚ :=
  (d.map Prod.snd).sum

/-- Stable insertion into a sorted list: `ble x y = true` means `x` may be
placed before `y`. -/
def insSorted {α : Type _} (ble : α → α → Bool) (x : α) : List α → List α
  | [] => [x]
  | y :: ys => if ble x y then x :: y :: ys else y :: insSorted ble x ys

/-- Stable sort (insertion sort).  With `ble x y = (key x ≤ key y)` this is
the unique stable ascending sort by `key`, i.e. Python's `sorted`; with
`ble x y = (key y ≤ key x)` it is Python's stable `sort(reverse=True)`. -/
def insSort {α : Type _} (ble : α → α → Bool) : List α → List α
  | [] => []
  | x :: xs => insSorted ble x (insSort ble xs)

-- ============================================================
-- collect_jira.py
-- ============================================================

/-- IssueMetrics dataclass of collect_jira.py.  Timestamps are rational
seconds; `phase_durations` maps phase id to cumulated hours. -/
structure IssueMetrics where
  key : String
  project : String
  issue_type : String
  created : ℚ
  resolved : Option ℚ
  phase_durations : List (String × ℚ)
  current_status : String
  assignee : Option String
  sprint_name : Option String
  summary : String
  parent_key : Option String
  parent_summary : Option String
  parent_issue_type : Option String
  deriving DecidableEq, Repr

/-- Configuration block `status_mapping`.  `overrides = none` models a
missing `overrides` key, `some none` models a null (`overrides:`) value,
`some (some o)` a present dict; `build_status_lookup` normalises the first
two to an empty dict via `... .get("overrides") or {}`. -/
structure StatusMappingCfg where
  default : List (String × List String)
  overrides : Option (Option (List (String × List (String × List String))))
  deriving DecidableEq, Repr

/-- `build_status_lookup` of collect_jira.py: invert the default
phase → statuses mapping, skipping any phase that the project's override
block redefines, then write the override's own status → phase bindings. -/
def build_status_lookup (cfg : StatusMappingCfg) (projectKey : String) :
    List (String × String) :=
  let overrides : List (String × List (String × List String)) :=
    match cfg.overrides with
    | some (some o) => o
    | _ => []
  let projectOverride := (dget overrides projectKey).getD []
  let base := cfg.default.foldl
    (fun lookup pr =>
      if dcontains projectOverride pr.1 then lookup
      else pr.2.foldl (fun lk status => dset lk status pr.1) lookup)
    []
  projectOverride.foldl
    (fun lk pr => pr.2.foldl (fun l status => dset l status pr.1) lk)
    base

/-- The per-event body of the loop in `compute_phase_durations`
(lines 115-131 of collect_jira.py): attribute the interval from each event
to the next (or to `now` for the last event) to the phase of the event's
`to_status`, with the unmapped fallback; non-positive intervals are
skipped.  The `unmapped_collector` out-parameter only reports labels and
does not affect the result, so it is not modelled. -/
def phaseLoop (status_lookup : List (String × String)) (now : ℚ) :
    List (ℚ × String × String) → List (String × ℚ) → List (String × ℚ)
  | [], acc => acc
  | (t, _f, toS) :: rest, acc =>
    let endT := match rest with | [] => now | (t2, _, _) :: _ => t2
    let d := (endT - t) / 3600
    let acc' :=
      if d ≤ 0 then acc
      else
        match dget status_lookup toS with
        | some p =>
            if p = "" then (if toS = "" then acc else dadd acc "unmapped" d)
            else dadd acc p d
        | none => if toS = "" then acc else dadd acc "unmapped" d
    phaseLoop status_lookup now rest acc'

/-- `compute_phase_durations` of collect_jira.py.  Events are
`(timestamp, from_status, to_status)` triples, sorted stably by timestamp;
the interval from `issue_created` to the first event is attributed to the
phase of the first event's `from_status` (Python's
`if initial_phase: ... elif first_from: ...`, where both a missing key and
an empty phase string are falsy). -/
def compute_phase_durations (status_changes : List (ℚ × String × String))
    (status_lookup : List (String × String))
    (issue_created : ℚ) (now : ℚ) : List (String × ℚ) :=
  let sorted_changes := insSort (fun a b => decide (a.1 ≤ b.1)) status_changes
  match sorted_changes with
  | [] => []
  | (t0, f0, _) :: _ =>
    let d0 := (t0 - issue_created) / 3600
    let initAcc : List (String × ℚ) :=
      match dget status_lookup f0 with
      | some p =>
          if p = "" then (if f0 = "" then [] else if 0 < d0 then dadd [] "unmapped" d0 else [])
          else (if 0 < d0 then dadd [] p d0 else [])
      | none => if f0 = "" then [] else if 0 < d0 then dadd [] "unmapped" d0 else []
    phaseLoop status_lookup now sorted_changes initAcc

-- ============================================================
-- aggregate.py — rounding and percentile statistics
-- ============================================================

/-- Round a rational to the nearest integer, half to even (Python's
`round` on exact decimal values). -/
def roundHalfEven (x : ℚ) : ℤ :=
  let f := ⌊x⌋
  let frac := x - f
  if frac < 1/2 then f
  else if 1/2 < frac then f + 1
  else if f % 2 = 0 then f else f + 1

/-- Python `round(x, 2)`. -/
def round2 (x : ℚ) : ℚ := (roundHalfEven (x * 100) : ℚ) / 100

/-- Python `round(x, 1)`. -/
def round1 (x : ℚ) : ℚ := (roundHalfEven (x * 10) : ℚ) / 10

/-- The `{"p50": .., "p85": .., "count": ..}` block returned by
`compute_percentile_stats` and `_compute_hour_stats`. -/
structure Stats where
  p50 : ℚ
  p85 : ℚ
  count : ℕ
  deriving DecidableEq, Repr

/-- The inner `percentile(p)` closure shared by `compute_percentile_stats`
and `_compute_hour_stats`: with one sample return it; otherwise linearly
interpolate at fractional index `(p/100)*(n-1)` (`int()` truncation equals
`Int.floor` since the index is non-negative), returning the lower sample
when the upper index overflows. -/
def pyPercentile (sortedValues : List ℚ) (p : ℚ) : ℚ :=
  let n := sortedValues.length
  if n = 1 then sortedValues.getD 0 0
  else
    let index := (p / 100) * ((n : ℚ) - 1)
    let lower := (⌊index⌋).toNat
    let upper := lower + 1
    if n ≤ upper then sortedValues.getD lower 0
    else
      let fraction := index - (lower : ℚ)
      sortedValues.getD lower 0 +
        fraction * (sortedValues.getD upper 0 - sortedValues.getD lower 0)

/-- Python's `sorted` on a list of floats. -/
def sortQ (values : List ℚ) : List ℚ :=
  insSort (fun a b => decide (a ≤ b)) values

/-- `compute_percentile_stats` of aggregate.py: hours in, days out
(divide by 24, round to 2 decimals); empty input gives zeros. -/
def compute_percentile_stats (values : List ℚ) : Stats :=
  if values = [] then ⟨0, 0, 0⟩
  else
    let sorted_values := sortQ values
    let n := sorted_values.length
    { p50 := round2 (pyPercentile sorted_values 50 / 24)
      p85 := round2 (pyPercentile sorted_values 85 / 24)
      count := n }

/-- `_compute_hour_stats` of aggregate.py: same percentile estimator but
the output stays in hours, rounded to 1 decimal. -/
def _compute_hour_stats (values : List ℚ) : Stats :=
  if values = [] then ⟨0, 0, 0⟩
  else
    let sorted_values := sortQ values
    let n := sorted_values.length
    { p50 := round1 (pyPercentile sorted_values 50)
      p85 := round1 (pyPercentile sorted_values 85)
      count := n }

-- ============================================================
-- aggregate.py — configuration and data model
-- ============================================================

/-- A `phases[]` entry of config.yaml: `{"id": .., "label": ..,
"color": ..}` (`color` optional, read with a default by `aggregate`). -/
structure Phase where
  id : String
  label : String
  color : Option String
  deriving DecidableEq, Repr

/-- A `teams[]` entry of config.yaml. -/
structure Team where
  id : String
  name : String
  jira_projects : List String
  github_repos : List String
  jenkins_jobs : List String
  deriving DecidableEq, Repr

/-- One `sa_sd_rules` rule source (the global block or one per-team
override): an issue-type list and summary patterns.  A compiled regex is
modelled by its `search` function `String → Bool`. -/
structure SaSdSource where
  issue_types : List String
  summary_patterns : List (String → Bool)

/-- The `sa_sd_rules` block.  A per-team override entry is present in
`overrides` exactly when Python's
`rules.get("overrides", {}).get(team_id)` is truthy (a non-empty dict);
falsy values behave as absent there. -/
structure SaSdRules where
  issue_types : List String
  summary_patterns : List (String → Bool)
  overrides : List (String × SaSdSource)

/-- The configuration slice consumed by `aggregate`.  `Option` fields
model possibly-missing config keys read through `.get(...)` chains;
`sa_sd_rules = none` models both a missing and a falsy (empty)
`sa_sd_rules` block (`config.get("sa_sd_rules", {})` followed by
`if not rules`). -/
structure Config where
  teams : List Team
  phases : List Phase
  lookback_days : Option ℕ
  recent_days : Option ℕ
  jira_base_url : Option String
  large_pr_threshold : Option ℕ
  thresholds_good : Option ℚ
  thresholds_warning : Option ℚ
  sa_sd_rules : Option SaSdRules

/-- PRMetrics dataclass of collect_github.py (timestamps in rational
seconds). -/
structure PRMetrics where
  repo : String
  pr_number : ℕ
  title : String
  jira_keys : List String
  created_at : ℚ
  first_review_at : Option ℚ
  merged_at : Option ℚ
  lines_added : ℕ
  lines_deleted : ℕ
  is_large : Bool
  deriving DecidableEq, Repr

/-- BuildResult dataclass of collect_jenkins.py (`result = none` models a
build still in progress). -/
structure BuildResult where
  job_name : String
  build_number : ℕ
  result : Option String
  duration_ms : ℚ
  timestamp : ℚ
  deriving DecidableEq, Repr

/-- `EXCLUDED_FROM_TOTAL` of aggregate.py. -/
def EXCLUDED_FROM_TOTAL : List String := ["backlog", "done", "unmapped"]

/-- The `throughput` block. -/
structure Throughput where
  completed_issues : ℕ
  story_points : Option ℚ
  weekly_trend : List ℕ
  deriving DecidableEq, Repr

/-- The team-level `pr_metrics` block. -/
structure PrMetricsOut where
  total_prs_merged : ℕ
  pickup_hours : Stats
  merge_time_hours : Stats
  large_pr_pct : ℚ
  deriving DecidableEq, Repr

/-- The team-level `build_metrics` block. -/
structure BuildMetricsOut where
  success_rate : ℚ
  avg_duration_mins : ℚ
  total_builds : ℕ
  weekly_trend : List ℕ
  deriving DecidableEq, Repr

/-- One entry of a team's `bottleneck_issues` list. -/
structure BottleneckItem where
  key : String
  summary : String
  parent_key : Option String
  parent_summary : Option String
  phase_duration_days : ℚ
  url : String
  deriving DecidableEq, Repr

/-- A per-project block of the report. -/
structure ProjectOut where
  cycle_time : List (String × Stats)
  throughput : Throughput
  pr_metrics : Option PrMetricsOut
  deriving DecidableEq, Repr

/-- A team's `aggregated` block. -/
structure AggregatedOut where
  cycle_time : List (String × Stats)
  throughput : Throughput
  pr_metrics : Option PrMetricsOut
  build_metrics : Option BuildMetricsOut
  bottleneck_phase : Option String
  bottleneck_issues : List BottleneckItem
  deriving DecidableEq, Repr

/-- One team's entry of the report. -/
structure TeamOut where
  name : String
  projects : List (String × ProjectOut)
  aggregated : AggregatedOut
  deriving DecidableEq, Repr

/-- A team's `trends` entry.  The `weeks` ISO labels are presentation
only; the embedding records the anchor instants computed by
`_get_week_labels` (`now - weeks_ago` weeks), whose `isocalendar`
formatting into strings is untranslated. -/
structure TrendOut where
  weeks : List ℚ
  cycle_time_p50 : List (Option ℚ)
  throughput : List ℕ
  pr_pickup_hours : Option ℚ
  deriving DecidableEq, Repr

/-- The `meta.phases` display entries. -/
structure PhaseMeta where
  id : String
  label : String
  color : String
  deriving DecidableEq, Repr

/-- The `summary` block. -/
structure SummaryOut where
  total_completed_issues : ℕ
  avg_cycle_time_days : Option ℚ
  avg_cycle_time_prev_period : Option ℚ
  total_prs_merged : Option ℕ
  avg_pr_pickup_hours : Option ℚ
  deriving DecidableEq, Repr

/-- The full dashboard report (dashboard.json). -/
structure Report where
  generated_at : ℚ
  period_start : ℚ
  period_end : ℚ
  meta_phases : List PhaseMeta
  thresholds_good : ℚ
  thresholds_warning : ℚ
  summary : SummaryOut
  teams : List (String × TeamOut)
  trends : List (String × TrendOut)
  deriving DecidableEq, Repr

-- ============================================================
-- aggregate.py — grouping, throughput, cycle time
-- ============================================================

/-- `group_by_team_project` of aggregate.py: build the reverse
project → team lookup, initialise every team's project lists, then append
each issue to its project's list (an issue whose project maps to no team
is dropped with a warning). -/
def group_by_team_project (cfg : Config) (issues : List IssueMetrics) :
    List (String × List (String × List IssueMetrics)) :=
  let project_to_team := cfg.teams.foldl
    (fun m team => team.jira_projects.foldl (fun m pk => dset m pk team.id) m) []
  let init := cfg.teams.foldl
    (fun r team => dset r team.id (team.jira_projects.foldl (fun m pk => dset m pk []) [])) []
  issues.foldl
    (fun r issue =>
      match dget project_to_team issue.project with
      | some tid =>
          if tid ≠ "" ∧ dcontains r tid then
            let inner := (dget r tid).getD []
            let inner' :=
              if dcontains inner issue.project then
                dset inner issue.project ((dget inner issue.project).getD [] ++ [issue])
              else dset inner issue.project [issue]
            dset r tid inner'
          else r
      | none => r)
    init

/-- `compute_weekly_trend` of aggregate.py: bucket resolved issues by
`(now - resolved).days // 7` (`timedelta.days` floors, `//` is floor
division), most recent week last. -/
def compute_weekly_trend (issues : List IssueMetrics) (num_weeks : ℕ) (now : ℚ) :
    List ℕ :=
  issues.foldl
    (fun wc issue =>
      match issue.resolved with
      | none => wc
      | some r =>
        let delta_days : ℤ := ⌊(now - r) / 86400⌋
        let week_index : ℤ := Int.fdiv delta_days 7
        if 0 ≤ week_index ∧ week_index < (num_weeks : ℤ) then
          let li := num_weeks - 1 - week_index.toNat
          wc.set li (wc.getD li 0 + 1)
        else wc)
    (List.replicate num_weeks 0)

/-- `compute_throughput` of aggregate.py. -/
def compute_throughput (issues : List IssueMetrics) (recent_days : ℕ) (now : ℚ) :
    Throughput :=
  let cutoff := now - (recent_days : ℚ) * 86400
  let resolved_issues := issues.filter
    (fun i => match i.resolved with
      | some r => decide (cutoff ≤ r)
      | none => false)
  { completed_issues := resolved_issues.length
    story_points := none
    weekly_trend := compute_weekly_trend issues 4 now }

/-- `_get_week_labels` of aggregate.py, keeping the anchor instants
(`now - weeks_ago` weeks) instead of their ISO-week string rendering. -/
def _get_week_labels (now : ℚ) (num_weeks : ℕ) : List ℚ :=
  (List.range num_weeks).map
    (fun i => now - ((num_weeks - 1 - i : ℕ) : ℚ) * 7 * 86400)

/-- `sum(hours for phase, hours in issue.phase_durations.items() if phase
not in EXCLUDED_FROM_TOTAL and hours > 0)`, the expression aggregate.py
inlines at lines 192-195, 426-429, 553-558 and 718-721. -/
def totalActiveHours (issue : IssueMetrics) : ℚ :=
  ((issue.phase_durations.filter
      (fun ph => ¬ EXCLUDED_FROM_TOTAL.contains ph.1 ∧ 0 < ph.2)).map Prod.snd).sum

/-- `_compute_cycle_time_for_project` of aggregate.py: per-phase stats
over the positive durations of resolved issues, plus the synthetic
`total` bucket. -/
def _compute_cycle_time_for_project (issues : List IssueMetrics)
    (phases : List Phase) : List (String × Stats) :=
  let resolved_issues := issues.filter (fun i => i.resolved.isSome)
  let cycle_time := phases.foldl
    (fun ct ph =>
      let values : List ℚ := resolved_issues.filterMap
        (fun i =>
          match dget i.phase_durations ph.id with
          | some h => if 0 < h then some h else none
          | none => none)
      dset ct ph.id (compute_percentile_stats values))
    ([] : List (String × Stats))
  let total_values := resolved_issues.filterMap
    (fun i => let th := totalActiveHours i; if 0 < th then some th else none)
  dset cycle_time "total" (compute_percentile_stats total_values)

-- ============================================================
-- aggregate.py — PR and build helpers
-- ============================================================

/-- `_group_prs_by_team` of aggregate.py. -/
def _group_prs_by_team (cfg : Config) (prs : List PRMetrics) :
    List (String × List PRMetrics) :=
  let repo_to_team := cfg.teams.foldl
    (fun m team => team.github_repos.foldl (fun m repo => dset m repo team.id) m) []
  let init := cfg.teams.foldl (fun r team => dset r team.id []) []
  prs.foldl
    (fun r pr =>
      match dget repo_to_team pr.repo with
      | some tid =>
          if tid ≠ "" ∧ dcontains r tid then
            dset r tid ((dget r tid).getD [] ++ [pr])
          else r
      | none => r)
    init

/-- `_compute_pr_metrics` of aggregate.py: `None` when no PR of the input
is merged; otherwise pickup/merge statistics over merged PRs only.  (Its
`large_pr_threshold` argument is unused by the source body, which reads
the precomputed `is_large` flag.) -/
def _compute_pr_metrics (prs : List PRMetrics) (large_pr_threshold : ℕ) :
    Option PrMetricsOut :=
  let _ := large_pr_threshold
  let merged := prs.filter (fun pr => pr.merged_at.isSome)
  if merged = [] then none
  else
    let pickup_hours := merged.filterMap
      (fun pr => pr.first_review_at.map (fun t => (t - pr.created_at) / 3600))
    let merge_hours := merged.map
      (fun pr => (pr.merged_at.getD 0 - pr.created_at) / 3600)
    let large_count := merged.countP (fun pr => pr.is_large)
    some
      { total_prs_merged := merged.length
        pickup_hours := _compute_hour_stats pickup_hours
        merge_time_hours := _compute_hour_stats merge_hours
        large_pr_pct := round1 ((large_count : ℚ) / (merged.length : ℚ) * 100) }

/-- `_group_builds_by_team` of aggregate.py. -/
def _group_builds_by_team (cfg : Config) (builds : List BuildResult) :
    List (String × List BuildResult) :=
  let job_to_team := cfg.teams.foldl
    (fun m team => team.jenkins_jobs.foldl (fun m job => dset m job team.id) m) []
  let init := cfg.teams.foldl (fun r team => dset r team.id []) []
  builds.foldl
    (fun r b =>
      match dget job_to_team b.job_name with
      | some tid =>
          if tid ≠ "" ∧ dcontains r tid then
            dset r tid ((dget r tid).getD [] ++ [b])
          else r
      | none => r)
    init

/-- `_compute_build_weekly_trend` of aggregate.py. -/
def _compute_build_weekly_trend (builds : List BuildResult) (num_weeks : ℕ)
    (now : ℚ) : List ℕ :=
  builds.foldl
    (fun wc b =>
      let delta_days : ℤ := ⌊(now - b.timestamp) / 86400⌋
      let week_index : ℤ := Int.fdiv delta_days 7
      if 0 ≤ week_index ∧ week_index < (num_weeks : ℤ) then
        let li := num_weeks - 1 - week_index.toNat
        wc.set li (wc.getD li 0 + 1)
      else wc)
    (List.replicate num_weeks 0)

/-- `_compute_build_metrics` of aggregate.py. -/
def _compute_build_metrics (builds : List BuildResult) (now : ℚ) :
    Option BuildMetricsOut :=
  let completed := builds.filter (fun b => b.result.isSome)
  if completed = [] then none
  else
    let success_count := completed.countP (fun b => b.result = some "SUCCESS")
    let success_rate := round1 ((success_count : ℚ) / (completed.length : ℚ) * 100)
    let durations := completed.filterMap
      (fun b => if 0 < b.duration_ms then some (b.duration_ms / 60000) else none)
    let avg_duration :=
      if durations = [] then 0
      else round1 (durations.sum / (durations.length : ℚ))
    some
      { success_rate := success_rate
        avg_duration_mins := avg_duration
        total_builds := completed.length
        weekly_trend := _compute_build_weekly_trend builds 4 now }

-- ============================================================
-- aggregate.py — SA/SD rules and bottleneck detection
-- ============================================================

/-- `_build_sa_sd_matcher` of aggregate.py: missing/falsy `sa_sd_rules`
gives the empty matcher; a truthy per-team override replaces the global
rule source entirely. -/
def _build_sa_sd_matcher (cfg : Config) (team_id : String) :
    List String × List (String → Bool) :=
  match cfg.sa_sd_rules with
  | none => ([], [])
  | some rules =>
    let source : SaSdSource :=
      if team_id ≠ "" then
        match dget rules.overrides team_id with
        | some src => src
        | none => ⟨rules.issue_types, rules.summary_patterns⟩
      else ⟨rules.issue_types, rules.summary_patterns⟩
    (source.issue_types, source.summary_patterns)

/-- `_is_sa_sd_issue` of aggregate.py: issue-type membership or any
summary pattern match. -/
def _is_sa_sd_issue (issue : IssueMetrics) (issue_types : List String)
    (patterns : List (String → Bool)) : Bool :=
  if issue_types.contains issue.issue_type then true
  else patterns.any (fun p => p issue.summary)

/-- `_compute_sa_sd_planning_hours` of aggregate.py: active time of an
SA/SD ticket (phases outside `EXCLUDED_FROM_TOTAL`, positive hours). -/
def _compute_sa_sd_planning_hours (issue : IssueMetrics) : ℚ :=
  totalActiveHours issue

/-- `_merge_sa_sd_into_planning` of aggregate.py, as a pure function on
the cycle-time dict (the source mutates it in place): with no SA/SD
samples the dict is returned untouched; otherwise the `planning` entry is
recomputed over the normal resolved positive planning values extended by
the SA/SD hours. -/
def _merge_sa_sd_into_planning (cycle_time : List (String × Stats))
    (normal_issues : List IssueMetrics) (sa_sd_hours : List ℚ) :
    List (String × Stats) :=
  if sa_sd_hours = [] then cycle_time
  else
    let planning_values : List ℚ := normal_issues.filterMap
      (fun i =>
        if i.resolved.isSome then
          match dget i.phase_durations "planning" with
          | some h => if 0 < h then some h else none
          | none => none
        else none)
    dset cycle_time "planning" (compute_percentile_stats (planning_values ++ sa_sd_hours))

/-- Python's `str.rstrip("/")`. -/
def stripTrailingSlashes (s : String) : String :=
  s.dropRightWhile (fun c => c = '/')

/-- `_find_bottleneck_issues` of aggregate.py: resolved issues with
positive time in the bottleneck phase, stably sorted by that time
descending, truncated to `limit`, rendered with browse URL and
Epic-parent annotations. -/
def _find_bottleneck_issues (issues : List IssueMetrics)
    (bottleneck_phase : String) (jira_base_url : String) (limit : ℕ) :
    List BottleneckItem :=
  let candidates : List (ℚ × IssueMetrics) := issues.filterMap
    (fun issue =>
      match issue.resolved with
      | none => none
      | some _ =>
        let hours := dgetD issue.phase_durations bottleneck_phase 0
        if 0 < hours then some (hours, issue) else none)
  let sortedCands := insSort (fun a b => decide (b.1 ≤ a.1)) candidates
  let browse_url := stripTrailingSlashes jira_base_url ++ "/browse/"
  (sortedCands.take limit).map
    (fun hi =>
      let is_epic := hi.2.parent_issue_type = some "Epic"
      { key := hi.2.key
        summary := hi.2.summary
        parent_key := if is_epic then hi.2.parent_key else none
        parent_summary := if is_epic then hi.2.parent_summary else none
        phase_duration_days := round2 (hi.1 / 24)
        url := browse_url ++ hi.2.key })

/-- The bottleneck-selection loop of `aggregate` (aggregate.py lines
619-629): scan configured phases in order, skip `EXCLUDED_FROM_TOTAL`,
keep the first phase whose stats have a positive count and a p50 strictly
above the running maximum (initially 0.0). -/
def selectBottleneck (phases : List Phase)
    (team_cycle_time : List (String × Stats)) : Option String :=
  (phases.foldl
    (fun bm ph =>
      if EXCLUDED_FROM_TOTAL.contains ph.id then bm
      else
        match dget team_cycle_time ph.id with
        | some st => if 0 < st.count ∧ bm.2 < st.p50 then (some ph.id, st.p50) else bm
        | none => bm)
    ((none : Option String), (0 : ℚ))).1

/-- `_compute_weekly_cycle_time_p50` of aggregate.py. -/
def _compute_weekly_cycle_time_p50 (issues : List IssueMetrics)
    (num_weeks : ℕ) (now : ℚ) : List (Option ℚ) :=
  let weekly_hours := issues.foldl
    (fun wh issue =>
      match issue.resolved with
      | none => wh
      | some r =>
        let delta_days : ℤ := ⌊(now - r) / 86400⌋
        let week_index : ℤ := Int.fdiv delta_days 7
        if 0 ≤ week_index ∧ week_index < (num_weeks : ℤ) then
          let th := totalActiveHours issue
          if 0 < th then
            let li := num_weeks - 1 - week_index.toNat
            wh.set li (wh.getD li [] ++ [th])
          else wh
        else wh)
    (List.replicate num_weeks ([] : List ℚ))
  weekly_hours.map
    (fun hl => if hl = [] then none else some (compute_percentile_stats hl).p50)

-- ============================================================
-- aggregate.py — the aggregation entry point
-- ============================================================

/-- The SA/SD split loop of `aggregate` (aggregate.py lines 585-594): an
SA/SD-classified issue contributes its positive active hours when
resolved and is never added to `normal_issues`; every other issue is kept
as normal. -/
def splitSaSd (sa_sd_types : List String) (sa_sd_pats : List (String → Bool))
    (project_issues : List IssueMetrics) : List IssueMetrics × List ℚ :=
  project_issues.foldl
    (fun acc issue =>
      if _is_sa_sd_issue issue sa_sd_types sa_sd_pats then
        match issue.resolved with
        | some _ =>
          let h := _compute_sa_sd_planning_hours issue
          if 0 < h then (acc.1, acc.2 ++ [h]) else acc
        | none => acc
      else (acc.1 ++ [issue], acc.2))
    (([], []) : List IssueMetrics × List ℚ)

/-- The per-project body of `aggregate`'s team loop (aggregate.py lines
583-610): split off SA/SD tickets when a matcher is configured, compute
the project's cycle-time block, merge SA/SD hours into `planning`, and
compute throughput over the normal issues.  Also returns the normal
issues and SA/SD hours the loop accumulates into the team-level lists. -/
def projectEntry (phases : List Phase) (recent_days : ℕ) (now : ℚ)
    (has_sa_sd : Bool) (sa_sd_types : List String)
    (sa_sd_pats : List (String → Bool)) (project_issues : List IssueMetrics) :
    ProjectOut × List IssueMetrics × List ℚ :=
  let split := if has_sa_sd then splitSaSd sa_sd_types sa_sd_pats project_issues
               else (project_issues, [])
  let normal_issues := split.1
  let sa_sd_hours := split.2
  let cycle_time := _merge_sa_sd_into_planning
    (_compute_cycle_time_for_project normal_issues phases) normal_issues sa_sd_hours
  let throughput := compute_throughput normal_issues recent_days now
  (⟨cycle_time, throughput, none⟩, normal_issues, sa_sd_hours)

/-- Python truthiness of the optional bottleneck phase id: a non-None,
non-empty string. -/
def optStrTruthy : Option String → Bool
  | some s => !(s = "")
  | none => false

/-- The per-team body of `aggregate` (aggregate.py lines 569-666),
producing the team's report entry and its trends entry. -/
def teamEntry (cfg : Config)
    (grouped : List (String × List (String × List IssueMetrics)))
    (prs_by_team : List (String × List PRMetrics))
    (builds_by_team : List (String × List BuildResult))
    (recent_days : ℕ) (large_pr_threshold : ℕ) (jira_base_url : String)
    (now : ℚ) (team : Team) : TeamOut × TrendOut :=
  let team_projects := (dget grouped team.id).getD []
  let team_prs := (dget prs_by_team team.id).getD []
  let team_builds := (dget builds_by_team team.id).getD []
  let matcher := _build_sa_sd_matcher cfg team.id
  let has_sa_sd := !matcher.1.isEmpty || !matcher.2.isEmpty
  let step := team_projects.foldl
    (fun acc pe =>
      let r := projectEntry cfg.phases recent_days now has_sa_sd matcher.1 matcher.2 pe.2
      (dset acc.1 pe.1 r.1, acc.2.1 ++ r.2.1, acc.2.2 ++ r.2.2))
    (([], [], []) : List (String × ProjectOut) × List IssueMetrics × List ℚ)
  let projects_output := step.1
  let all_team_issues := step.2.1
  let all_team_sa_sd_hours := step.2.2
  let team_cycle_time := _merge_sa_sd_into_planning
    (_compute_cycle_time_for_project all_team_issues cfg.phases)
    all_team_issues all_team_sa_sd_hours
  let team_throughput := compute_throughput all_team_issues recent_days now
  let team_pr_metrics := _compute_pr_metrics team_prs large_pr_threshold
  let team_build_metrics := _compute_build_metrics team_builds now
  let bottleneck_phase_id := selectBottleneck cfg.phases team_cycle_time
  let bottleneck_issues :=
    if optStrTruthy bottleneck_phase_id ∧ jira_base_url ≠ "" then
      _find_bottleneck_issues all_team_issues (bottleneck_phase_id.getD "")
        jira_base_url 10
    else []
  let team_resolved_weekly := compute_weekly_trend all_team_issues 4 now
  let team_cycle_p50_weekly := _compute_weekly_cycle_time_p50 all_team_issues 4 now
  let team_pr_pickup_p50 : Option ℚ :=
    match team_pr_metrics with
    | some m => if 0 < m.pickup_hours.count then some m.pickup_hours.p50 else none
    | none => none
  (⟨team.name, projects_output,
    ⟨team_cycle_time, team_throughput, team_pr_metrics, team_build_metrics,
     bottleneck_phase_id, bottleneck_issues⟩⟩,
   ⟨_get_week_labels now 4, team_cycle_p50_weekly, team_resolved_weekly,
    team_pr_pickup_p50⟩)

/-- `aggregate` of aggregate.py.  `github_data`/`jenkins_data` are `none`
when not collected; `now` models the single `datetime.now(timezone.utc)`
instant of the run. -/
def aggregate (cfg : Config) (jira_data : List IssueMetrics)
    (github_data : Option (List PRMetrics))
    (jenkins_data : Option (List BuildResult)) (now : ℚ) : Report :=
  let lookback_days := cfg.lookback_days.getD 90
  let recent_days := cfg.recent_days.getD 30
  let jira_base_url := cfg.jira_base_url.getD ""
  let large_pr_threshold := cfg.large_pr_threshold.getD 400
  let period_start := now - (lookback_days : ℚ) * 86400
  let grouped := group_by_team_project cfg jira_data
  let prs_by_team := _group_prs_by_team cfg (github_data.getD [])
  let builds_by_team := _group_builds_by_team cfg (jenkins_data.getD [])
  let all_prs := github_data.getD []
  let all_merged_prs := all_prs.filter (fun pr => pr.merged_at.isSome)
  let total_prs_merged : Option ℕ :=
    if all_prs = [] then none else some all_merged_prs.length
  let all_pickup_hours := all_merged_prs.filterMap
    (fun pr => pr.first_review_at.map (fun t => (t - pr.created_at) / 3600))
  let avg_pr_pickup_hours : Option ℚ :=
    if all_pickup_hours = [] then none
    else some (_compute_hour_stats all_pickup_hours).p50
  let resolved_all := jira_data.filter (fun i => i.resolved.isSome)
  let avg_cycle_time_days : Option ℚ :=
    if resolved_all = [] then none
    else
      let non_zero := (resolved_all.map totalActiveHours).filter (fun h => 0 < h)
      if non_zero = [] then none
      else some (round2 (non_zero.sum / (non_zero.length : ℚ) / 24))
  let step := cfg.teams.foldl
    (fun acc team =>
      let te := teamEntry cfg grouped prs_by_team builds_by_team recent_days
        large_pr_threshold jira_base_url now team
      (dset acc.1 team.id te.1, dset acc.2 team.id te.2))
    (([], []) : List (String × TeamOut) × List (String × TrendOut))
  let phases_meta := (cfg.phases.filter
      (fun p => ¬ (p.id = "backlog" ∨ p.id = "done"))).map
    (fun p => ({ id := p.id, label := p.label, color := p.color.getD "#888888" } : PhaseMeta))
  { generated_at := now
    period_start := period_start
    period_end := now
    meta_phases := phases_meta
    thresholds_good := cfg.thresholds_good.getD 2
    thresholds_warning := cfg.thresholds_warning.getD 5
    summary :=
      { total_completed_issues := resolved_all.length
        avg_cycle_time_days := avg_cycle_time_days
        avg_cycle_time_prev_period := none
        total_prs_merged := total_prs_merged
        avg_pr_pickup_hours := avg_pr_pickup_hours }
    teams := step.1
    trends := step.2 }

-- ============================================================
-- PR-derived dev-time correction (spec §4.4)
-- ============================================================

/-- Python's `str.upper()` (character-wise uppercase). -/
def toUpperStr (s : String) : String :=
  ⟨s.data.map Char.toUpper⟩

/-- Modelled from the spec: `_build_jira_pr_index` is referenced by the
repository's tests but missing from src/scripts/aggregate.py.  "build a
reverse index from normalized (upper-cased) Jira key to all merged PRs
that reference it" — unmerged PRs are excluded from the index. -/
def _build_jira_pr_index (prs : List PRMetrics) :
    List (String × List PRMetrics) :=
  prs.foldl
    (fun idx pr =>
      if pr.merged_at.isSome then
        pr.jira_keys.foldl
          (fun idx k =>
            let ku := toUpperStr k
            dset idx ku ((dget idx ku).getD [] ++ [pr]))
          idx
      else idx)
    []

/-- Modelled from the spec: `_compute_pr_dev_hours` is referenced by the
repository's tests but missing from src/scripts/aggregate.py.  "compute a
PR-derived dev hours candidate as: if any linked PR has a first-review
timestamp, `min(PR created_at) → min(PR first_review_at)` across linked
PRs; otherwise fall back to `min(PR created_at) → min(PR merged_at)`";
an empty PR list yields 0.0, and a list with neither reviews nor merge
times (never produced by the index, which holds only merged PRs) also
yields 0.0. -/
def _compute_pr_dev_hours (prs : List PRMetrics) : ℚ :=
  match prs.map (fun pr => pr.created_at) with
  | [] => 0
  | c :: cs =>
    let minCreated := cs.foldl min c
    match prs.filterMap (fun pr => pr.first_review_at) with
    | r :: rs => (rs.foldl min r - minCreated) / 3600
    | [] =>
      match prs.filterMap (fun pr => pr.merged_at) with
      | m :: ms => (ms.foldl min m - minCreated) / 3600
      | [] => 0

/-- Modelled from the spec: the per-issue step of
`_enhance_dev_durations_with_prs` (missing from src/scripts/aggregate.py).
"For an issue with at least one linked merged PR ... If this PR-derived
value exceeds the issue's recorded dev phase duration, replace the
issue's dev-phase value with it ... Only resolved issues are eligible;
issues with no linked merged PR are untouched." -/
def enhanceIssue (index : List (String × List PRMetrics))
    (issue : IssueMetrics) : IssueMetrics :=
  if issue.resolved.isSome then
    let prs := (dget index (toUpperStr issue.key)).getD []
    if prs = [] then issue
    else
      let pr_dev := _compute_pr_dev_hours prs
      let jira_dev := dgetD issue.phase_durations "dev" 0
      if jira_dev < pr_dev then
        { issue with phase_durations := dset issue.phase_durations "dev" pr_dev }
      else issue
  else issue

/-- Modelled from the spec: whether `enhanceIssue` modifies the issue
(the tests' returned modification count counts exactly these issues). -/
def enhancedP (index : List (String × List PRMetrics))
    (issue : IssueMetrics) : Bool :=
  issue.resolved.isSome &&
    (let prs := (dget index (toUpperStr issue.key)).getD []
     !prs.isEmpty &&
       decide (dgetD issue.phase_durations "dev" 0 < _compute_pr_dev_hours prs))

/-- Modelled from the spec: `_enhance_dev_durations_with_prs` is
referenced by the repository's tests but missing from
src/scripts/aggregate.py.  Applies the PR-derived dev-time correction to
every issue and returns the corrected issues with the number of issues
modified. -/
def _enhance_dev_durations_with_prs (issues : List IssueMetrics)
    (index : List (String × List PRMetrics)) : List IssueMetrics × ℕ :=
  (issues.map (enhanceIssue index), issues.countP (fun i => enhancedP index i))

-- ============================================================
-- Basic lemmas about the dictionary and sorting helpers
-- ============================================================

theorem dget_dset {α : Type _} (d : List (String × α)) (k k' : String) (v : α) :
    dget (dset d k v) k' = if k = k' then some v else dget d k' := by
  induction d with
  | nil => simp [dset, dget]
  | cons hd t ih =>
    obtain ⟨a, b⟩ := hd
    by_cases hak : a = k
    · subst hak
      by_cases hkk : a = k' <;> simp [dset, dget, hkk]
    · by_cases hak' : a = k'
      · subst hak'
        have hka : ¬ k = a := fun h => hak h.symm
        simp [dset, dget, hak, hka]
      · simp [dset, dget, hak, hak', ih]

theorem sumValues_dadd (d : List (String × ℚ)) (k : String) (v : ℚ) :
    sumValues (dadd d k v) = sumValues d + v := by
  induction d with
  | nil => simp [dadd, dset, dget, sumValues]
  | cons hd t ih =>
    obtain ⟨a, b⟩ := hd
    by_cases hak : a = k
    · subst hak
      simp [dadd, dset, dget, sumValues]
      ring
    · have : dadd ((a, b) :: t) k v = (a, b) :: dadd t k v := by
        simp [dadd, dset, dget, hak]
      rw [this]
      simp [sumValues] at ih ⊢
      rw [ih]
      ring

theorem insSorted_perm {α : Type _} (ble : α → α → Bool) (x : α) (l : List α) :
    (insSorted ble x l).Perm (x :: l) := by
  induction l with
  | nil => simp [insSorted]
  | cons y ys ih =>
    by_cases h : ble x y
    · simp [insSorted, h]
    · simp only [insSorted, h, Bool.false_eq_true, if_false]
      exact ((ih.cons y).trans (List.Perm.swap x y ys))

theorem insSort_perm {α : Type _} (ble : α → α → Bool) (l : List α) :
    (insSort ble l).Perm l := by
  induction l with
  | nil => simp [insSort]
  | cons x xs ih =>
    exact (insSorted_perm ble x (insSort ble xs)).trans (ih.cons x)

theorem mem_insSort {α : Type _} (ble : α → α → Bool) (l : List α) (a : α) :
    a ∈ insSort ble l ↔ a ∈ l :=
  (insSort_perm ble l).mem_iff

theorem insSort_length {α : Type _} (ble : α → α → Bool) (l : List α) :
    (insSort ble l).length = l.length :=
  (insSort_perm ble l).length_eq

theorem insSort_of_chain {α : Type _} (ble : α → α → Bool) (l : List α)
    (h : l.Chain' (fun a b => ble a b = true)) : insSort ble l = l := by
  induction l with
  | nil => rfl
  | cons x xs ih =>
    have hxs : insSort ble xs = xs := ih h.tail
    simp only [insSort, hxs]
    cases xs with
    | nil => rfl
    | cons y ys =>
      have hxy : ble x y = true := List.chain'_cons.mp h |>.1
      simp [insSorted, hxy]

-- ============================================================
-- C3: the percentile estimator
-- ============================================================

/-- The percentile estimator exactly as the specification words it
(spec §4.3): fractional index `(p/100)*(n-1)`, linear interpolation
between `floor(idx)` and `floor(idx)+1`, clamped to the last element when
the upper index overflows. -/
def specInterp (s : List ℚ) (p : ℚ) : ℚ :=
  let n := s.length
  let idx := (p / 100) * ((n : ℚ) - 1)
  let k := (⌊idx⌋).toNat
  if n ≤ k + 1 then s.getD (n - 1) 0
  else s.getD k 0 + (idx - (k : ℚ)) * (s.getD (k + 1) 0 - s.getD k 0)

theorem pyPercentile_eq_specInterp (s : List ℚ) (p : ℚ)
    (hp0 : 0 ≤ p) (hp1 : p ≤ 100) (hn : 1 ≤ s.length) :
    pyPercentile s p = specInterp s p := by
  rcases Nat.lt_or_ge 1 s.length with h2 | h1
  · -- at least two samples
    have hne : s.length ≠ 1 := by omega
    set n := s.length with hnn
    set idx := (p / 100) * ((n : ℚ) - 1) with hidx
    have hidx_nonneg : 0 ≤ idx := by
      apply mul_nonneg (by positivity)
      have : (1 : ℚ) ≤ (n : ℚ) := by exact_mod_cast hn
      linarith
    have hidx_le : idx ≤ (n : ℚ) - 1 := by
      have hb : (0 : ℚ) ≤ (n : ℚ) - 1 := by
        have : (1 : ℚ) ≤ (n : ℚ) := by exact_mod_cast hn
        linarith
      have hp' : p / 100 ≤ 1 := by linarith [div_le_one_of_le₀ hp1 (by norm_num : (0:ℚ) ≤ 100)]
      calc (p / 100) * ((n : ℚ) - 1) ≤ 1 * ((n : ℚ) - 1) :=
            mul_le_mul_of_nonneg_right hp' hb
        _ = (n : ℚ) - 1 := one_mul _
    have hfloor_le : ⌊idx⌋ ≤ (n : ℤ) - 1 := by
      have : ((n : ℚ) - 1) = (((n : ℤ) - 1 : ℤ) : ℚ) := by push_cast; ring
      have h := Int.floor_le_floor hidx_le
      rwa [this, Int.floor_intCast] at h
    have hk_le : (⌊idx⌋).toNat ≤ n - 1 := by
      omega
    simp only [pyPercentile, specInterp, hne, if_false, ← hnn, ← hidx]
    by_cases hcl : n ≤ (⌊idx⌋).toNat + 1
    · have hkeq : (⌊idx⌋).toNat = n - 1 := by omega
      simp [hcl, hkeq]
    · simp [hcl]
  · -- exactly one sample
    have h1' : s.length = 1 := by omega
    simp only [pyPercentile, specInterp, h1', if_true]
    norm_num

/-- C3: `compute_percentile_stats` returns all-zero statistics on the
empty list; on a singleton every percentile equals that value converted
to days; on any non-empty list it returns the linear-interpolation
percentile estimator of the spec (fractional index `(p/100)*(n-1)`,
clamped to the last element) applied to the ascending sort of the values,
converted to days; and the p50 over the hours `[48, 72]` is 2.5 days. -/
theorem c3_percentile_estimator :
    compute_percentile_stats [] = ⟨0, 0, 0⟩ ∧
    (∀ v : ℚ, compute_percentile_stats [v] = ⟨round2 (v / 24), round2 (v / 24), 1⟩) ∧
    (∀ values : List ℚ, values ≠ [] →
      compute_percentile_stats values =
        ⟨round2 (specInterp (sortQ values) 50 / 24),
         round2 (specInterp (sortQ values) 85 / 24), values.length⟩) ∧
    (compute_percentile_stats [48, 72]).p50 = 5 / 2 := by
  refine ⟨rfl, ?_, ?_, by with_unfolding_all decide⟩
  · intro v
    simp [compute_percentile_stats, sortQ, insSort, insSorted, pyPercentile]
  · intro values hne
    have hlen : (sortQ values).length = values.length := insSort_length _ _
    have hpos : 1 ≤ (sortQ values).length := by
      rw [hlen]
      exact Nat.one_le_iff_ne_zero.mpr (fun h => hne (List.length_eq_zero.mp h))
    simp only [compute_percentile_stats, hne, if_false]
    rw [pyPercentile_eq_specInterp _ _ (by norm_num) (by norm_num) hpos,
      pyPercentile_eq_specInterp _ _ (by norm_num) (by norm_num) hpos, hlen]

/-- Witness for `c3_percentile_estimator`: its non-emptiness hypothesis
discharged at the concrete sample list `[24, 48]`. -/
theorem c3_percentile_estimator_witness :
    ([24, 48] : List ℚ) ≠ [] ∧
    compute_percentile_stats [24, 48] =
      ⟨round2 (specInterp (sortQ [24, 48]) 50 / 24),
       round2 (specInterp (sortQ [24, 48]) 85 / 24), 2⟩ :=
  ⟨by decide, c3_percentile_estimator.2.2.1 [24, 48] (by decide)⟩

-- ============================================================
-- C2: duration conservation of compute_phase_durations
-- ============================================================

/-- A status label is mapped by the lookup (to a phase the Python
truthiness test accepts, i.e. a non-empty phase id). -/
def mappedStatus (lk : List (String × String)) (s : String) : Bool :=
  match dget lk s with
  | some p => !(p = "")
  | none => false

theorem mappedStatus_elim (lk : List (String × String)) (s : String)
    (h : mappedStatus lk s = true) :
    ∃ p, dget lk s = some p ∧ p ≠ "" := by
  unfold mappedStatus at h
  cases hg : dget lk s with
  | none => rw [hg] at h; simp at h
  | some p =>
    rw [hg] at h
    simp at h
    exact ⟨p, rfl, h⟩

theorem phaseLoop_sum (lk : List (String × String)) (endT : ℚ) :
    ∀ (rest : List (ℚ × String × String)) (e : ℚ × String × String)
      (acc : List (String × ℚ)),
    (∀ ev ∈ e :: rest, mappedStatus lk ev.2.2 = true) →
    ((e :: rest).map (fun x => x.1) ++ [endT]).Chain' (· < ·) →
    sumValues (phaseLoop lk endT (e :: rest) acc) =
      sumValues acc + (endT - e.1) / 3600 := by
  intro rest
  induction rest with
  | nil =>
    intro e acc hmap hchain
    obtain ⟨t, f, toS⟩ := e
    have hlt : t < endT := by
      simp only [List.map_cons, List.map_nil, List.nil_append,
        List.cons_append, List.chain'_cons, List.nil_append] at hchain
      exact hchain.1
    have hd : ¬ ((endT - t) / 3600 ≤ 0) := by
      push_neg
      exact div_pos (by linarith) (by norm_num)
    obtain ⟨p, hp, hpne⟩ := mappedStatus_elim lk toS (hmap (t, f, toS) (by simp))
    simp only [phaseLoop, hp, hd, if_false, hpne, if_neg hpne]
    exact sumValues_dadd acc p _
  | cons e2 rest ih =>
    intro e acc hmap hchain
    obtain ⟨t, f, toS⟩ := e
    obtain ⟨t2, f2, toS2⟩ := e2
    have hlt : t < t2 := by
      simp only [List.map_cons, List.cons_append, List.chain'_cons] at hchain
      exact hchain.1
    have hchain' : (((t2, f2, toS2) :: rest).map (fun x => x.1) ++ [endT]).Chain'
        (· < ·) := by
      simp only [List.map_cons, List.cons_append, List.chain'_cons] at hchain ⊢
      exact hchain.2
    have hd : ¬ ((t2 - t) / 3600 ≤ 0) := by
      push_neg
      exact div_pos (by linarith) (by norm_num)
    obtain ⟨p, hp, hpne⟩ := mappedStatus_elim lk toS (hmap (t, f, toS) (by simp))
    have hmap' : ∀ ev ∈ (t2, f2, toS2) :: rest, mappedStatus lk ev.2.2 = true :=
      fun ev hev => hmap ev (List.mem_cons_of_mem _ hev)
    rw [phaseLoop]
    simp only [hp, hd, if_false, if_neg hpne]
    rw [ih (t2, f2, toS2) (dadd acc p ((t2 - t) / 3600)) hmap' hchain',
      sumValues_dadd]
    ring

/-- C2: duration conservation.  For a non-empty event list whose
boundaries `issue_created`, sorted event timestamps, `end_time` are
strictly increasing and all of whose from/to statuses are mapped by the
lookup, the values of `compute_phase_durations` sum to
`(end_time - issue_created)` in hours: no duration is lost or counted
twice. -/
theorem c2_duration_conservation (changes : List (ℚ × String × String))
    (lk : List (String × String)) (created endT : ℚ)
    (hne : changes ≠ [])
    (hmap : ∀ ev ∈ changes,
      mappedStatus lk ev.2.1 = true ∧ mappedStatus lk ev.2.2 = true)
    (hchain : (created ::
        ((insSort (fun a b => decide (a.1 ≤ b.1)) changes).map (fun x => x.1)
          ++ [endT])).Chain' (· < ·)) :
    sumValues (compute_phase_durations changes lk created endT) =
      (endT - created) / 3600 := by
  cases hs : insSort (fun a b => decide (a.1 ≤ b.1)) changes with
  | nil =>
    exfalso
    have := insSort_length (fun a b => decide (a.1 ≤ b.1)) changes
    rw [hs] at this
    exact hne (List.length_eq_zero.mp this.symm)
  | cons e rest =>
    obtain ⟨t0, f0, to0⟩ := e
    have hmem : (t0, f0, to0) ∈ changes := by
      have := (mem_insSort (fun a b => decide (a.1 ≤ b.1)) changes (t0, f0, to0))
      rw [hs] at this
      exact this.mp (by simp)
    have hmemsorted : ∀ ev ∈ (t0, f0, to0) :: rest, mappedStatus lk ev.2.2 = true := by
      intro ev hev
      have := (mem_insSort (fun a b => decide (a.1 ≤ b.1)) changes ev)
      rw [hs] at this
      exact (hmap ev (this.mp hev)).2
    have hc0 : created < t0 := by
      rw [hs] at hchain
      simp only [List.map_cons, List.cons_append, List.chain'_cons] at hchain
      exact hchain.1
    have hchainrest : (((t0, f0, to0) :: rest).map (fun x => x.1) ++ [endT]).Chain'
        (· < ·) := by
      rw [hs] at hchain
      exact hchain.tail
    obtain ⟨p, hp, hpne⟩ := mappedStatus_elim lk f0 (hmap _ hmem).1
    have hd0 : 0 < (t0 - created) / 3600 := div_pos (by linarith) (by norm_num)
    simp only [compute_phase_durations, hs]
    rw [phaseLoop_sum lk endT rest (t0, f0, to0) _ hmemsorted hchainrest]
    simp only [hp, if_neg hpne, hd0, if_true]
    rw [sumValues_dadd]
    simp [sumValues]
    ring

/-- Witness for `c2_duration_conservation` at a concrete two-event
history: 1h in `x`, 1h in `y`, 1h in `z` sum to the 3h span. -/
theorem c2_duration_conservation_witness :
    (([(3600, "A", "B"), (7200, "B", "C")] : List (ℚ × String × String)) ≠ [] ∧
      (∀ ev ∈ ([(3600, "A", "B"), (7200, "B", "C")] : List (ℚ × String × String)),
        mappedStatus [("A", "x"), ("B", "y"), ("C", "z")] ev.2.1 = true ∧
        mappedStatus [("A", "x"), ("B", "y"), ("C", "z")] ev.2.2 = true)) ∧
    sumValues (compute_phase_durations [(3600, "A", "B"), (7200, "B", "C")]
        [("A", "x"), ("B", "y"), ("C", "z")] 0 10800) = (10800 - 0) / 3600 := by
  refine ⟨⟨by decide, by with_unfolding_all decide⟩,
    c2_duration_conservation [(3600, "A", "B"), (7200, "B", "C")]
      [("A", "x"), ("B", "y"), ("C", "z")] 0 10800
      (by decide) (by with_unfolding_all decide) ?_⟩
  have hs : insSort (fun (a b : ℚ × String × String) => decide (a.1 ≤ b.1))
      [(3600, "A", "B"), (7200, "B", "C")] = [(3600, "A", "B"), (7200, "B", "C")] := by
    apply insSort_of_chain
    simp [List.chain'_cons]
    norm_num
  rw [hs]
  simp [List.chain'_cons]
  norm_num

-- ============================================================
-- C6: revisiting a phase accumulates additively
-- ============================================================

/-- C6: revisit additivity.  An issue that visits `dev` twice — from `t1`
to `t2` and again from `t3` to `t4` — ends up with a `dev` duration equal
to the sum of both visits in hours, not just the latest one. -/
theorem c6_revisit_additivity (c t1 t2 t3 t4 endT : ℚ)
    (h1 : c < t1) (h2 : t1 < t2) (h3 : t2 < t3) (h4 : t3 < t4) (h5 : t4 < endT) :
    dget (compute_phase_durations
      [(t1, "Backlog", "In Progress"), (t2, "In Progress", "In Review"),
       (t3, "In Review", "In Progress"), (t4, "In Progress", "Done")]
      [("Backlog", "backlog"), ("In Progress", "dev"),
       ("In Review", "review"), ("Done", "done")]
      c endT) "dev" = some ((t2 - t1) / 3600 + (t4 - t3) / 3600) := by
  have hsorted : insSort (fun (a b : ℚ × String × String) => decide (a.1 ≤ b.1))
      [(t1, "Backlog", "In Progress"), (t2, "In Progress", "In Review"),
       (t3, "In Review", "In Progress"), (t4, "In Progress", "Done")] =
      [(t1, "Backlog", "In Progress"), (t2, "In Progress", "In Review"),
       (t3, "In Review", "In Progress"), (t4, "In Progress", "Done")] := by
    apply insSort_of_chain
    simp [List.chain'_cons, le_of_lt, h2, h3, h4]
  have hd0 : 0 < (t1 - c) / 3600 := div_pos (by linarith) (by norm_num)
  have hdA : ¬ ((t2 - t1) / 3600 ≤ 0) := by
    push_neg; exact div_pos (by linarith) (by norm_num)
  have hdB : ¬ ((t3 - t2) / 3600 ≤ 0) := by
    push_neg; exact div_pos (by linarith) (by norm_num)
  have hdC : ¬ ((t4 - t3) / 3600 ≤ 0) := by
    push_neg; exact div_pos (by linarith) (by norm_num)
  have hdD : ¬ ((endT - t4) / 3600 ≤ 0) := by
    push_neg; exact div_pos (by linarith) (by norm_num)
  simp only [compute_phase_durations, hsorted, phaseLoop, hd0, hdA, hdB, hdC, hdD,
    if_true, if_false]
  simp [dget, dadd, dset, dgetD]

/-- Witness for `c6_revisit_additivity`: visits of 24h and 48h to `dev`
yield `dev = 72.0` hours. -/
theorem c6_revisit_additivity_witness :
    ((0 : ℚ) < 3600 ∧ (3600 : ℚ) < 90000 ∧ (90000 : ℚ) < 93600 ∧
      (93600 : ℚ) < 266400 ∧ (266400 : ℚ) < 270000) ∧
    dget (compute_phase_durations
      [(3600, "Backlog", "In Progress"), (90000, "In Progress", "In Review"),
       (93600, "In Review", "In Progress"), (266400, "In Progress", "Done")]
      [("Backlog", "backlog"), ("In Progress", "dev"),
       ("In Review", "review"), ("Done", "done")]
      0 270000) "dev" = some ((90000 - 3600) / 3600 + (266400 - 93600) / 3600) :=
  ⟨by norm_num,
    c6_revisit_additivity 0 3600 90000 93600 266400 270000
      (by norm_num) (by norm_num) (by norm_num) (by norm_num) (by norm_num)⟩

-- ============================================================
-- Further dictionary and fold lemmas
-- ============================================================

theorem mem_dset {α : Type _} (d : List (String × α)) (k : String) (v : α)
    (e : String × α) (h : e ∈ dset d k v) : e ∈ d ∨ e = (k, v) := by
  induction d with
  | nil =>
    simp [dset] at h
    exact Or.inr h
  | cons hd t ih =>
    obtain ⟨a, b⟩ := hd
    by_cases hak : a = k
    · simp [dset, hak] at h
      rcases h with h | h
      · exact Or.inr (by simp [h])
      · exact Or.inl (List.mem_cons_of_mem _ h)
    · simp [dset, hak] at h
      rcases h with h | h
      · exact Or.inl (by simp [h])
      · rcases ih h with h' | h'
        · exact Or.inl (List.mem_cons_of_mem _ h')
        · exact Or.inr h'

theorem dget_mem {α : Type _} (d : List (String × α)) (k : String) (v : α)
    (h : dget d k = some v) : (k, v) ∈ d := by
  induction d with
  | nil => simp [dget] at h
  | cons hd t ih =>
    obtain ⟨a, b⟩ := hd
    by_cases hak : a = k
    · subst hak
      simp [dget] at h
      simp [h]
    · simp [dget, hak] at h
      exact List.mem_cons_of_mem _ (ih h)

theorem mem_foldl_dset {α β : Type _} (key : β → String) (val : β → α)
    (l : List β) :
    ∀ (init : List (String × α)) (e : String × α),
    e ∈ l.foldl (fun acc x => dset acc (key x) (val x)) init →
    e ∈ init ∨ ∃ b ∈ l, e = (key b, val b) := by
  induction l with
  | nil =>
    intro init e h
    exact Or.inl h
  | cons b bs ih =>
    intro init e h
    rcases ih (dset init (key b) (val b)) e h with h' | h'
    · rcases mem_dset init (key b) (val b) e h' with h'' | h''
      · exact Or.inl h''
      · exact Or.inr ⟨b, by simp, h''⟩
    · obtain ⟨b', hb', he⟩ := h'
      exact Or.inr ⟨b', List.mem_cons_of_mem _ hb', he⟩

theorem dcontains_dset {α : Type _} (d : List (String × α)) (k k' : String)
    (v : α) :
    dcontains (dset d k v) k' = (decide (k = k') || dcontains d k') := by
  by_cases h : k = k' <;> simp [dcontains, dget_dset, h]

theorem dcontains_foldl_dset {α β : Type _} (key : β → String) (val : β → α)
    (l : List β) :
    ∀ (init : List (String × α)) (k : String),
    dcontains init k = true →
    dcontains (l.foldl (fun acc x => dset acc (key x) (val x)) init) k = true := by
  induction l with
  | nil => intro init k h; exact h
  | cons b bs ih =>
    intro init k h
    apply ih
    rw [dcontains_dset]
    simp [h]

theorem dcontains_foldl_dset_of_mem {α β : Type _} (key : β → String)
    (val : β → α) (l : List β) :
    ∀ (init : List (String × α)) (b : β), b ∈ l →
    dcontains (l.foldl (fun acc x => dset acc (key x) (val x)) init) (key b) = true := by
  induction l with
  | nil => intro _ _ h; simp at h
  | cons b' bs ih =>
    intro init b hb
    rcases List.mem_cons.mp hb with h | h
    · subst h
      exact dcontains_foldl_dset key val bs (dset init (key b) (val b)) (key b)
        (by rw [dcontains_dset]; simp)
    · exact ih _ b h

-- ============================================================
-- C9: pr_metrics is computed over merged PRs only
-- ============================================================

/-- C9: `_compute_pr_metrics` returns `None` exactly when no input PR has
a non-null `merged_at` (so a non-empty list of unmerged PRs behaves like
the empty list), and its result is invariant under discarding the
unmerged PRs — every statistic is computed over merged PRs only. -/
theorem c9_pr_metrics_merged_only (prs : List PRMetrics) (threshold : ℕ) :
    (_compute_pr_metrics prs threshold = none ↔
      prs.filter (fun pr => pr.merged_at.isSome) = []) ∧
    _compute_pr_metrics prs threshold =
      _compute_pr_metrics (prs.filter (fun pr => pr.merged_at.isSome)) threshold := by
  have hm : (prs.filter (fun pr => pr.merged_at.isSome)).filter
      (fun pr => pr.merged_at.isSome) = prs.filter (fun pr => pr.merged_at.isSome) := by
    apply List.filter_eq_self.mpr
    intro a ha
    exact (List.mem_filter.mp ha).2
  constructor
  · unfold _compute_pr_metrics
    by_cases h : prs.filter (fun pr => pr.merged_at.isSome) = [] <;> simp [h]
  · unfold _compute_pr_metrics
    rw [hm]

-- ============================================================
-- C10: bottleneck_issues requires a configured jira base URL
-- ============================================================

theorem foldl_pair_dset_fst {β γ δ : Type _} (key : β → String) (F : β → γ)
    (G : β → δ) (l : List β) :
    ∀ acc : List (String × γ) × List (String × δ),
    (l.foldl (fun acc x => (dset acc.1 (key x) (F x), dset acc.2 (key x) (G x))) acc).1 =
      l.foldl (fun a x => dset a (key x) (F x)) acc.1 := by
  induction l with
  | nil => intro acc; rfl
  | cons b bs ih => intro acc; exact ih _

theorem foldl_pair_dset_snd {β γ δ : Type _} (key : β → String) (F : β → γ)
    (G : β → δ) (l : List β) :
    ∀ acc : List (String × γ) × List (String × δ),
    (l.foldl (fun acc x => (dset acc.1 (key x) (F x), dset acc.2 (key x) (G x))) acc).2 =
      l.foldl (fun a x => dset a (key x) (G x)) acc.2 := by
  induction l with
  | nil => intro acc; rfl
  | cons b bs ih => intro acc; exact ih _

/-- The team entry computed by `aggregate` for a given team, with all
configuration defaulting spelled out (used to characterise the entries of
the report's `teams` and `trends` dictionaries). -/
def teamEntryOf (cfg : Config) (jira_data : List IssueMetrics)
    (github_data : Option (List PRMetrics))
    (jenkins_data : Option (List BuildResult)) (now : ℚ) (team : Team) :
    TeamOut × TrendOut :=
  teamEntry cfg (group_by_team_project cfg jira_data)
    (_group_prs_by_team cfg (github_data.getD []))
    (_group_builds_by_team cfg (jenkins_data.getD []))
    (cfg.recent_days.getD 30) (cfg.large_pr_threshold.getD 400)
    (cfg.jira_base_url.getD "") now team

theorem aggregate_teams_eq_fold (cfg : Config) (jira_data : List IssueMetrics)
    (github_data : Option (List PRMetrics))
    (jenkins_data : Option (List BuildResult)) (now : ℚ) :
    (aggregate cfg jira_data github_data jenkins_data now).teams =
      cfg.teams.foldl (fun a team =>
        dset a team.id (teamEntryOf cfg jira_data github_data jenkins_data now team).1) [] := by
  show (cfg.teams.foldl (fun acc team =>
      (dset acc.1 team.id (teamEntryOf cfg jira_data github_data jenkins_data now team).1,
       dset acc.2 team.id (teamEntryOf cfg jira_data github_data jenkins_data now team).2))
      ([], [])).1 = _
  exact foldl_pair_dset_fst (fun team : Team => team.id) _ _ cfg.teams ([], [])

theorem aggregate_trends_eq_fold (cfg : Config) (jira_data : List IssueMetrics)
    (github_data : Option (List PRMetrics))
    (jenkins_data : Option (List BuildResult)) (now : ℚ) :
    (aggregate cfg jira_data github_data jenkins_data now).trends =
      cfg.teams.foldl (fun a team =>
        dset a team.id (teamEntryOf cfg jira_data github_data jenkins_data now team).2) [] := by
  show (cfg.teams.foldl (fun acc team =>
      (dset acc.1 team.id (teamEntryOf cfg jira_data github_data jenkins_data now team).1,
       dset acc.2 team.id (teamEntryOf cfg jira_data github_data jenkins_data now team).2))
      ([], [])).2 = _
  exact foldl_pair_dset_snd (fun team : Team => team.id) _ _ cfg.teams ([], [])

theorem aggregate_teams_entries (cfg : Config) (jira_data : List IssueMetrics)
    (github_data : Option (List PRMetrics))
    (jenkins_data : Option (List BuildResult)) (now : ℚ) :
    ∀ e ∈ (aggregate cfg jira_data github_data jenkins_data now).teams,
      ∃ team ∈ cfg.teams,
        e = (team.id, (teamEntryOf cfg jira_data github_data jenkins_data now team).1) := by
  intro e he
  rw [aggregate_teams_eq_fold] at he
  rcases mem_foldl_dset (fun team : Team => team.id)
      (fun team => (teamEntryOf cfg jira_data github_data jenkins_data now team).1)
      cfg.teams [] e he with h | h
  · simp at h
  · exact h

/-- The two bottleneck-related fields of a team's entry: the phase is the
selection-loop result, and the issue list is guarded by the Python
truthiness of both the phase and the configured base URL. -/
theorem teamEntry_bottleneck_fields (cfg : Config)
    (grouped : List (String × List (String × List IssueMetrics)))
    (prs_by_team : List (String × List PRMetrics))
    (builds_by_team : List (String × List BuildResult))
    (recent_days : ℕ) (large_pr_threshold : ℕ) (jira_base_url : String)
    (now : ℚ) (team : Team) :
    ∃ bp issues,
      (teamEntry cfg grouped prs_by_team builds_by_team recent_days
        large_pr_threshold jira_base_url now team).1.aggregated.bottleneck_phase = bp ∧
      (teamEntry cfg grouped prs_by_team builds_by_team recent_days
        large_pr_threshold jira_base_url now team).1.aggregated.bottleneck_issues =
        (if optStrTruthy bp ∧ jira_base_url ≠ "" then issues else []) :=
  ⟨_, _, rfl, rfl⟩

theorem optStrTruthy_isSome (o : Option String) (h : optStrTruthy o = true) :
    o.isSome = true := by
  cases o with
  | none => simp [optStrTruthy] at h
  | some s => rfl

/-- C10: when the configured `jira.base_url` is missing or empty,
`aggregate` leaves every team's `bottleneck_issues` empty even when a
bottleneck phase was identified; conversely a non-empty
`bottleneck_issues` list implies both a bottleneck phase and a non-empty
configured base URL. -/
theorem c10_bottleneck_issues_need_base_url (cfg : Config)
    (jira_data : List IssueMetrics) (github_data : Option (List PRMetrics))
    (jenkins_data : Option (List BuildResult)) (now : ℚ) :
    (cfg.jira_base_url.getD "" = "" →
      ∀ e ∈ (aggregate cfg jira_data github_data jenkins_data now).teams,
        e.2.aggregated.bottleneck_issues = []) ∧
    (∀ e ∈ (aggregate cfg jira_data github_data jenkins_data now).teams,
      e.2.aggregated.bottleneck_issues ≠ [] →
        e.2.aggregated.bottleneck_phase.isSome = true ∧
          cfg.jira_base_url.getD "" ≠ "") := by
  constructor
  · intro hurl e he
    obtain ⟨team, _, rfl⟩ := aggregate_teams_entries cfg jira_data github_data
      jenkins_data now e he
    obtain ⟨bp, issues, _, hiss⟩ := teamEntry_bottleneck_fields cfg
      (group_by_team_project cfg jira_data)
      (_group_prs_by_team cfg (github_data.getD []))
      (_group_builds_by_team cfg (jenkins_data.getD []))
      (cfg.recent_days.getD 30) (cfg.large_pr_threshold.getD 400)
      (cfg.jira_base_url.getD "") now team
    simp only [teamEntryOf]
    rw [hiss, if_neg]
    rw [hurl]
    simp
  · intro e he hne
    obtain ⟨team, _, rfl⟩ := aggregate_teams_entries cfg jira_data github_data
      jenkins_data now e he
    obtain ⟨bp, issues, hbp, hiss⟩ := teamEntry_bottleneck_fields cfg
      (group_by_team_project cfg jira_data)
      (_group_prs_by_team cfg (github_data.getD []))
      (_group_builds_by_team cfg (jenkins_data.getD []))
      (cfg.recent_days.getD 30) (cfg.large_pr_threshold.getD 400)
      (cfg.jira_base_url.getD "") now team
    simp only [teamEntryOf] at hne ⊢
    rw [hiss] at hne
    by_cases hc : optStrTruthy bp ∧ cfg.jira_base_url.getD "" ≠ ""
    · rw [hbp]
      exact ⟨optStrTruthy_isSome bp hc.1, hc.2⟩
    · rw [if_neg hc] at hne
      exact absurd rfl hne

-- ============================================================
-- Concrete fixtures for witnesses
-- ============================================================

/-- A one-team configuration used by concrete witnesses. -/
def sampleTeam : Team := ⟨"t", "Team T", ["P"], ["r"], ["j"]⟩

/-- The sample phase list used by concrete witnesses. -/
def samplePhases : List Phase :=
  [⟨"backlog", "Backlog", none⟩, ⟨"planning", "SA/SD", none⟩,
   ⟨"dev", "Dev", none⟩, ⟨"qa", "QA", none⟩, ⟨"done", "Done", none⟩]

/-- A configuration with no optional blocks (in particular no
`jira.base_url` and no `sa_sd_rules`). -/
def sampleCfg : Config :=
  { teams := [sampleTeam], phases := samplePhases, lookback_days := none,
    recent_days := none, jira_base_url := none, large_pr_threshold := none,
    thresholds_good := none, thresholds_warning := none, sa_sd_rules := none }

/-- A resolved issue of project `P` with 24 dev hours. -/
def sampleIssue : IssueMetrics :=
  ⟨"P-1", "P", "Story", 0, some 0, [("dev", 24)], "Done",
   none, none, "", none, none, none⟩

/-- Witness for `c10_bottleneck_issues_need_base_url`: the sample
configuration has no configured base URL, and the sample run then leaves
every team's `bottleneck_issues` empty. -/
theorem c10_bottleneck_issues_need_base_url_witness :
    (sampleCfg.jira_base_url.getD "" = "") ∧
    (∀ e ∈ (aggregate sampleCfg [sampleIssue] none none 86400).teams,
      e.2.aggregated.bottleneck_issues = []) :=
  ⟨rfl,
   (c10_bottleneck_issues_need_base_url sampleCfg [sampleIssue] none none 86400).1 rfl⟩

-- ============================================================
-- C1: PR-derived dev-time correction (spec-modelled)
-- ============================================================

/-- C1: the PR-derived dev-time correction (modelled from the spec, the
function being absent from src/): the correction maps each issue
independently; a resolved issue with linked merged PRs has its `dev`
phase replaced by the PR-derived hours exactly when those exceed the
recorded value, and is untouched when the recorded value is at least as
large; unresolved issues and issues with no linked PR entry are never
modified. -/
theorem c1_pr_dev_correction (index : List (String × List PRMetrics))
    (issue : IssueMetrics) (issues : List IssueMetrics) :
    (_enhance_dev_durations_with_prs issues index).1 =
      issues.map (enhanceIssue index) ∧
    (issue.resolved.isSome = true →
      ∀ prs, dget index (toUpperStr issue.key) = some prs → prs ≠ [] →
        (dgetD issue.phase_durations "dev" 0 < _compute_pr_dev_hours prs →
          enhanceIssue index issue =
            { issue with
              phase_durations := dset issue.phase_durations "dev" (_compute_pr_dev_hours prs) }) ∧
        (_compute_pr_dev_hours prs ≤ dgetD issue.phase_durations "dev" 0 →
          enhanceIssue index issue = issue)) ∧
    (issue.resolved = none → enhanceIssue index issue = issue) ∧
    ((dget index (toUpperStr issue.key)).getD [] = [] →
      enhanceIssue index issue = issue) := by
  refine ⟨rfl, ?_, ?_, ?_⟩
  · intro hres prs hprs hne
    constructor
    · intro hlt
      simp [enhanceIssue, hres, hprs, hne, hlt]
    · intro hle
      simp [enhanceIssue, hres, hprs, hne, not_lt.mpr hle]
  · intro hres
    simp [enhanceIssue, hres]
  · intro hempty
    unfold enhanceIssue
    cases hres : issue.resolved.isSome
    · simp
    · simp [hempty]

/-- Witness for `c1_pr_dev_correction`, at the spec's own example: a PR
window of 48h (created → first review) replaces a recorded `dev = 0.25`,
while a recorded `dev = 72` is preserved. -/
theorem c1_pr_dev_correction_witness :
    ((⟨"P-1", "P", "Story", 0, some 432000, [("dev", 1/4)], "Done",
        none, none, "", none, none, none⟩ : IssueMetrics).resolved.isSome = true ∧
      dget (_build_jira_pr_index
        [⟨"r", 1, "pr", ["P-1"], 0, some 172800, some 216000, 50, 50, false⟩])
        (toUpperStr "P-1") =
          some [⟨"r", 1, "pr", ["P-1"], 0, some 172800, some 216000, 50, 50, false⟩] ∧
      _compute_pr_dev_hours
        [⟨"r", 1, "pr", ["P-1"], 0, some 172800, some 216000, 50, 50, false⟩] = 48) ∧
    enhanceIssue
      (_build_jira_pr_index
        [⟨"r", 1, "pr", ["P-1"], 0, some 172800, some 216000, 50, 50, false⟩])
      ⟨"P-1", "P", "Story", 0, some 432000, [("dev", 1/4)], "Done",
        none, none, "", none, none, none⟩ =
      ⟨"P-1", "P", "Story", 0, some 432000, [("dev", 48)], "Done",
        none, none, "", none, none, none⟩ ∧
    enhanceIssue
      (_build_jira_pr_index
        [⟨"r", 1, "pr", ["P-1"], 0, some 172800, some 216000, 50, 50, false⟩])
      ⟨"P-1", "P", "Story", 0, some 432000, [("dev", 72)], "Done",
        none, none, "", none, none, none⟩ =
      ⟨"P-1", "P", "Story", 0, some 432000, [("dev", 72)], "Done",
        none, none, "", none, none, none⟩ := by
  have hidx : dget (_build_jira_pr_index
      [⟨"r", 1, "pr", ["P-1"], 0, some 172800, some 216000, 50, 50, false⟩])
      (toUpperStr "P-1") =
      some [⟨"r", 1, "pr", ["P-1"], 0, some 172800, some 216000, 50, 50, false⟩] := by
    simp [_build_jira_pr_index, toUpperStr, dget, dset]
  have hdev : _compute_pr_dev_hours
      [⟨"r", 1, "pr", ["P-1"], 0, some 172800, some 216000, 50, 50, false⟩] = 48 := by
    norm_num [_compute_pr_dev_hours, List.filterMap_cons, List.map_cons]
  refine ⟨⟨rfl, hidx, hdev⟩, ?_, ?_⟩
  · have h := ((c1_pr_dev_correction
      (_build_jira_pr_index
        [⟨"r", 1, "pr", ["P-1"], 0, some 172800, some 216000, 50, 50, false⟩])
      ⟨"P-1", "P", "Story", 0, some 432000, [("dev", 1/4)], "Done",
        none, none, "", none, none, none⟩ []).2.1 rfl
      [⟨"r", 1, "pr", ["P-1"], 0, some 172800, some 216000, 50, 50, false⟩]
      hidx (by simp)).1
      (by rw [hdev]; norm_num [dgetD, dget])
    rw [h, hdev]
    norm_num [dset, dget]
  · have h := ((c1_pr_dev_correction
      (_build_jira_pr_index
        [⟨"r", 1, "pr", ["P-1"], 0, some 172800, some 216000, 50, 50, false⟩])
      ⟨"P-1", "P", "Story", 0, some 432000, [("dev", 72)], "Done",
        none, none, "", none, none, none⟩ []).2.1 rfl
      [⟨"r", 1, "pr", ["P-1"], 0, some 172800, some 216000, 50, 50, false⟩]
      hidx (by simp)).2
      (by rw [hdev]; norm_num [dgetD, dget])
    exact h

-- ============================================================
-- C7: bottleneck selection
-- ============================================================

/-- A phase eligible for bottleneck selection: not excluded, present in
the cycle-time dict, with at least one sample. -/
def bottleneckCand (ct : List (String × Stats)) (ph : Phase) : Bool :=
  !(EXCLUDED_FROM_TOTAL.contains ph.id) &&
    (match dget ct ph.id with
     | some st => decide (0 < st.count)
     | none => false)

/-- The p50 of a phase's cycle-time block (0 when the phase is absent). -/
def candScore (ct : List (String × Stats)) (ph : Phase) : ℚ :=
  match dget ct ph.id with
  | some st => st.p50
  | none => 0

/-- The selection rule in the claim's terms, generalised over a running
maximum `mx` and current best: among the eligible phases, pick the first
one (in configured order) attaining the maximum p50, provided that
maximum strictly exceeds `mx`; otherwise keep `best`.  With `mx = 0` and
`best = none` this is exactly "the first configured phase with count > 0
and the highest, strictly positive, p50 — or none". -/
def specGo (ct : List (String × Stats)) (mx : ℚ) (best : Option String)
    (phases : List Phase) : Option String :=
  let cands := phases.filter (fun ph => bottleneckCand ct ph)
  let m := (cands.map (candScore ct)).foldr max mx
  if m ≤ mx then best
  else
    match cands.find? (fun ph => decide (candScore ct ph = m)) with
    | some ph => some ph.id
    | none => best

theorem le_foldr_max (b : ℚ) (l : List ℚ) : b ≤ l.foldr max b := by
  induction l with
  | nil => exact le_refl b
  | cons x xs ih => exact le_trans ih (le_max_right x _)

theorem max_foldr_swap (b c : ℚ) (l : List ℚ) :
    max b (l.foldr max c) = max c (l.foldr max b) := by
  induction l with
  | nil => exact max_comm b c
  | cons x xs ih =>
    simp only [List.foldr_cons]
    rw [max_left_comm b x, ih, max_left_comm]

theorem foldr_max_mem (l : List ℚ) (b : ℚ) :
    l.foldr max b = b ∨ l.foldr max b ∈ l := by
  induction l with
  | nil => exact Or.inl rfl
  | cons x xs ih =>
    simp only [List.foldr_cons]
    rcases max_choice x (xs.foldr max b) with h | h
    · rw [h]
      exact Or.inr (List.mem_cons_self x xs)
    · rw [h]
      rcases ih with h' | h'
      · exact Or.inl h'
      · exact Or.inr (List.mem_cons_of_mem _ h')

theorem specGo_cons_notcand (ct : List (String × Stats)) (ph : Phase)
    (phs : List Phase) (best : Option String) (mx : ℚ)
    (hcand : bottleneckCand ct ph = false) :
    specGo ct mx best (ph :: phs) = specGo ct mx best phs := by
  simp [specGo, List.filter_cons, hcand]

theorem specGo_cons_skip (ct : List (String × Stats)) (ph : Phase)
    (phs : List Phase) (best : Option String) (mx : ℚ)
    (hcand : bottleneckCand ct ph = true) (hle : candScore ct ph ≤ mx) :
    specGo ct mx best (ph :: phs) = specGo ct mx best phs := by
  have hbase : mx ≤ ((phs.filter (fun p => bottleneckCand ct p)).map
      (candScore ct)).foldr max mx := le_foldr_max _ _
  have hmax : max (candScore ct ph)
      (((phs.filter (fun p => bottleneckCand ct p)).map (candScore ct)).foldr max mx) =
      ((phs.filter (fun p => bottleneckCand ct p)).map (candScore ct)).foldr max mx :=
    max_eq_right (le_trans hle hbase)
  by_cases hm : ((phs.filter (fun p => bottleneckCand ct p)).map
      (candScore ct)).foldr max mx ≤ mx
  · simp [specGo, List.filter_cons, hcand, hmax, hm]
  · have hne : ¬ (candScore ct ph =
        ((phs.filter (fun p => bottleneckCand ct p)).map (candScore ct)).foldr max mx) := by
      intro heq
      exact hm (heq ▸ hle)
    simp [specGo, List.filter_cons, hcand, hmax, hm, List.find?_cons, hne]

theorem specGo_cons_better (ct : List (String × Stats)) (ph : Phase)
    (phs : List Phase) (best : Option String) (mx : ℚ)
    (hcand : bottleneckCand ct ph = true) (hlt : mx < candScore ct ph) :
    specGo ct mx best (ph :: phs) =
      specGo ct (candScore ct ph) (some ph.id) phs := by
  set s := candScore ct ph with hs
  set S := (phs.filter (fun p => bottleneckCand ct p)).map (candScore ct) with hS
  have hswap : max s (S.foldr max mx) = max mx (S.foldr max s) := max_foldr_swap s mx S
  have hsm : s ≤ S.foldr max s := le_foldr_max _ _
  have hmxm : mx < S.foldr max s := lt_of_lt_of_le hlt hsm
  have hmax : max s (S.foldr max mx) = S.foldr max s := by
    rw [hswap]
    exact max_eq_right (le_of_lt hmxm)
  by_cases heq : s = S.foldr max s
  · -- the head already attains the (new) maximum: found immediately,
    -- and the recursive spec keeps the head as best
    have hcond : ¬ (max s (S.foldr max mx) ≤ mx) := by
      rw [hmax]
      exact not_le.mpr hmxm
    simp only [specGo, List.filter_cons, hcand, if_true, List.map_cons, List.foldr_cons,
      hmax]
    rw [if_neg (not_le.mpr hmxm)]
    rw [List.find?_cons]
    have : (decide (candScore ct ph = S.foldr max s)) = true := by
      rw [← hs, ← heq]; simp
    rw [this]
    rw [if_pos (le_of_eq (heq.symm))]
  · -- the maximum is attained strictly later
    have hslt : s < S.foldr max s := lt_of_le_of_ne hsm heq
    have hcond : ¬ (max s (S.foldr max mx) ≤ mx) := by
      rw [hmax]
      exact not_le.mpr hmxm
    have hmem : S.foldr max s ∈ S := by
      rcases foldr_max_mem S s with h | h
      · exact absurd h.symm heq
      · exact h
    obtain ⟨ph', hph', hsc⟩ := List.mem_map.mp hmem
    have hfind : ((phs.filter (fun p => bottleneckCand ct p)).find?
        (fun p => decide (candScore ct p = S.foldr max s))).isSome := by
      apply List.find?_isSome.mpr
      exact ⟨ph', hph', by simp [hsc]⟩
    simp only [specGo, List.filter_cons, hcand, if_true, List.map_cons, List.foldr_cons,
      hmax]
    rw [if_neg (not_le.mpr hmxm)]
    rw [if_neg (not_le.mpr hslt)]
    rw [List.find?_cons]
    have : (decide (candScore ct ph = S.foldr max s)) = false := by
      rw [← hs]; simp [heq]
    rw [this]
    cases hf : (phs.filter (fun p => bottleneckCand ct p)).find?
        (fun p => decide (candScore ct p = S.foldr max s)) with
    | none => rw [hf] at hfind; simp at hfind
    | some y => rfl

theorem select_go_eq (ct : List (String × Stats)) :
    ∀ (phases : List Phase) (best : Option String) (mx : ℚ),
    (phases.foldl (fun bm ph =>
      if EXCLUDED_FROM_TOTAL.contains ph.id then bm
      else
        match dget ct ph.id with
        | some st => if 0 < st.count ∧ bm.2 < st.p50 then (some ph.id, st.p50) else bm
        | none => bm) (best, mx)).1 = specGo ct mx best phases := by
  intro phases
  induction phases with
  | nil =>
    intro best mx
    simp [specGo]
  | cons ph phs ih =>
    intro best mx
    by_cases hex : EXCLUDED_FROM_TOTAL.contains ph.id
    · have hcand : bottleneckCand ct ph = false := by
        unfold bottleneckCand
        rw [hex]
        rfl
      rw [List.foldl_cons, if_pos hex, ih best mx, specGo_cons_notcand ct ph phs best mx hcand]
    · have hex' : EXCLUDED_FROM_TOTAL.contains ph.id = false := by simpa using hex
      cases hdg : dget ct ph.id with
      | none =>
        have hcand : bottleneckCand ct ph = false := by
          unfold bottleneckCand
          rw [hex', hdg]
          rfl
        rw [List.foldl_cons, if_neg hex]
        simp only [hdg]
        rw [ih best mx, specGo_cons_notcand ct ph phs best mx hcand]
      | some st =>
        by_cases hcnt : 0 < st.count
        · have hcand : bottleneckCand ct ph = true := by
            unfold bottleneckCand
            rw [hex', hdg]
            simp [hcnt]
          have hscore : candScore ct ph = st.p50 := by simp [candScore, hdg]
          by_cases hlt : mx < st.p50
          · rw [List.foldl_cons, if_neg hex]
            simp only [hdg, if_pos (And.intro hcnt hlt)]
            rw [ih (some ph.id) st.p50,
              specGo_cons_better ct ph phs best mx hcand (hscore ▸ hlt), hscore]
          · rw [List.foldl_cons, if_neg hex]
            simp only [hdg]
            rw [if_neg (by
              intro hc
              exact hlt hc.2)]
            rw [ih best mx,
              specGo_cons_skip ct ph phs best mx hcand (hscore ▸ not_lt.mp hlt)]
        · have hcand : bottleneckCand ct ph = false := by
            unfold bottleneckCand
            rw [hex', hdg]
            simp [hcnt]
          rw [List.foldl_cons, if_neg hex]
          simp only [hdg]
          rw [if_neg (by
            intro hc
            exact hcnt hc.1)]
          rw [ih best mx, specGo_cons_notcand ct ph phs best mx hcand]

theorem selectBottleneck_eq_specGo (phases : List Phase)
    (ct : List (String × Stats)) :
    selectBottleneck phases ct = specGo ct 0 none phases :=
  select_go_eq ct phases none 0

theorem selectBottleneck_congr (phases : List Phase)
    (ct1 ct2 : List (String × Stats))
    (h : ∀ ph ∈ phases, dget ct1 ph.id = dget ct2 ph.id) :
    selectBottleneck phases ct1 = selectBottleneck phases ct2 := by
  unfold selectBottleneck
  have : ∀ (l : List Phase) (acc : Option String × ℚ),
      (∀ ph ∈ l, dget ct1 ph.id = dget ct2 ph.id) →
      l.foldl (fun bm ph =>
        if EXCLUDED_FROM_TOTAL.contains ph.id then bm
        else
          match dget ct1 ph.id with
          | some st => if 0 < st.count ∧ bm.2 < st.p50 then (some ph.id, st.p50) else bm
          | none => bm) acc =
      l.foldl (fun bm ph =>
        if EXCLUDED_FROM_TOTAL.contains ph.id then bm
        else
          match dget ct2 ph.id with
          | some st => if 0 < st.count ∧ bm.2 < st.p50 then (some ph.id, st.p50) else bm
          | none => bm) acc := by
    intro l
    induction l with
    | nil => intro acc _; rfl
    | cons ph phs ih =>
      intro acc hl
      simp only [List.foldl_cons]
      rw [hl ph (by simp)]
      exact ih _ (fun p hp => hl p (List.mem_cons_of_mem _ hp))
  rw [this phases (none, 0) h]

/-- The cycle-time and bottleneck-phase fields of a team's entry: the
phase is the selection loop applied to the very cycle-time dict stored in
the entry. -/
theorem teamEntry_bottleneck_phase (cfg : Config)
    (grouped : List (String × List (String × List IssueMetrics)))
    (prs_by_team : List (String × List PRMetrics))
    (builds_by_team : List (String × List BuildResult))
    (recent_days : ℕ) (large_pr_threshold : ℕ) (jira_base_url : String)
    (now : ℚ) (team : Team) :
    ∃ tct,
      (teamEntry cfg grouped prs_by_team builds_by_team recent_days
        large_pr_threshold jira_base_url now team).1.aggregated.cycle_time = tct ∧
      (teamEntry cfg grouped prs_by_team builds_by_team recent_days
        large_pr_threshold jira_base_url now team).1.aggregated.bottleneck_phase =
        selectBottleneck cfg.phases tct :=
  ⟨_, rfl, rfl⟩

/-- C7 (amended): the bottleneck phase reported by `aggregate` for every
team equals the first configured phase (skipping
backlog/done/unmapped) whose cycle-time block has `count > 0` and the
highest p50, provided that p50 is strictly positive — if every
candidate's p50 is 0.0 no bottleneck is reported — with ties keeping the
first configured phase; and the synthetic `total` entry of the
cycle-time dict is never consulted when no configured phase is named
`total`. -/
theorem c7_bottleneck_selection (cfg : Config) (jira_data : List IssueMetrics)
    (github_data : Option (List PRMetrics))
    (jenkins_data : Option (List BuildResult)) (now : ℚ) :
    (∀ (phases : List Phase) (ct : List (String × Stats)),
      selectBottleneck phases ct = specGo ct 0 none phases) ∧
    (∀ e ∈ (aggregate cfg jira_data github_data jenkins_data now).teams,
      e.2.aggregated.bottleneck_phase =
        specGo e.2.aggregated.cycle_time 0 none cfg.phases) ∧
    (∀ (phases : List Phase) (ct : List (String × Stats)) (st : Stats),
      "total" ∉ phases.map Phase.id →
      selectBottleneck phases (dset ct "total" st) = selectBottleneck phases ct) := by
  refine ⟨selectBottleneck_eq_specGo, ?_, ?_⟩
  · intro e he
    obtain ⟨team, _, rfl⟩ := aggregate_teams_entries cfg jira_data github_data
      jenkins_data now e he
    obtain ⟨tct, hct, hbp⟩ := teamEntry_bottleneck_phase cfg
      (group_by_team_project cfg jira_data)
      (_group_prs_by_team cfg (github_data.getD []))
      (_group_builds_by_team cfg (jenkins_data.getD []))
      (cfg.recent_days.getD 30) (cfg.large_pr_threshold.getD 400)
      (cfg.jira_base_url.getD "") now team
    simp only [teamEntryOf]
    rw [hbp, hct, selectBottleneck_eq_specGo]
  · intro phases ct st htot
    apply selectBottleneck_congr
    intro ph hph
    rw [dget_dset]
    rw [if_neg]
    intro heq
    exact htot (heq ▸ List.mem_map_of_mem Phase.id hph)

/-- Counterexample to C7 as stated: a resolved issue with 0.075h in
`dev` produces a `dev` cycle-time block with `count = 1` — so `dev` is
the phase with the highest p50 among phases with at least one sample,
which the claim says is selected — yet the selection loop reports no
bottleneck at all, because the rounded p50 of 0.0 never strictly exceeds
the loop's initial maximum of 0.0. -/
theorem c7_bottleneck_selection_counterexample :
    (_compute_cycle_time_for_project
      [⟨"P-1", "P", "Story", 0, some 0, [("dev", 3/40)], "Done",
        none, none, "", none, none, none⟩]
      [⟨"dev", "Dev", none⟩] =
      [("dev", ⟨0, 0, 1⟩), ("total", ⟨0, 0, 1⟩)]) ∧
    selectBottleneck [⟨"dev", "Dev", none⟩]
      [("dev", (⟨0, 0, 1⟩ : Stats)), ("total", ⟨0, 0, 1⟩)] = none := by
  have hfl : ⌊(3/40 : ℚ) / 24 * 100⌋ = 0 := by
    rw [Int.floor_eq_iff]; norm_num
  have hr : round2 ((3/40 : ℚ) / 24) = 0 := by
    simp only [round2, roundHalfEven, hfl]
    norm_num
  have hstep : compute_percentile_stats [(3/40 : ℚ)] =
      ⟨round2 ((3/40 : ℚ) / 24), round2 ((3/40 : ℚ) / 24), 1⟩ := rfl
  have hstats : compute_percentile_stats [(3/40 : ℚ)] = ⟨0, 0, 1⟩ := by
    rw [hstep, hr]
  constructor
  · simp [_compute_cycle_time_for_project, totalActiveHours, EXCLUDED_FROM_TOTAL,
      dget, dset, List.filterMap_cons, List.filter_cons, hstats,
      (by norm_num : (0:ℚ) < 3/40)]
  · simp [selectBottleneck, EXCLUDED_FROM_TOTAL, dget]

/-- Witness for `c7_bottleneck_selection`: the synthetic-total conjunct
applied at the sample phase list (whose ids do not include `total`), and
the selection/spec equivalence applied at a concrete cycle-time dict. -/
theorem c7_bottleneck_selection_witness :
    ("total" ∉ samplePhases.map Phase.id ∧
      selectBottleneck samplePhases
          (dset [("dev", (⟨1, 1, 1⟩ : Stats))] "total" ⟨5, 5, 9⟩) =
        selectBottleneck samplePhases [("dev", ⟨1, 1, 1⟩)]) ∧
    selectBottleneck samplePhases [("dev", (⟨1, 1, 1⟩ : Stats))] =
      specGo [("dev", ⟨1, 1, 1⟩)] 0 none samplePhases :=
  ⟨⟨by decide,
    (c7_bottleneck_selection sampleCfg [] none none 0).2.2 samplePhases
      [("dev", ⟨1, 1, 1⟩)] ⟨5, 5, 9⟩ (by decide)⟩,
   (c7_bottleneck_selection sampleCfg [] none none 0).1 samplePhases
     [("dev", ⟨1, 1, 1⟩)]⟩

-- ============================================================
-- C5: the SA/SD merge rule
-- ============================================================

/-- The SA/SD contribution of one issue: its positive active hours when
it is SA/SD-classified and resolved, nothing otherwise. -/
def saSdContribution (ty : List String) (pa : List (String → Bool))
    (i : IssueMetrics) : Option ℚ :=
  if _is_sa_sd_issue i ty pa ∧ i.resolved.isSome ∧
      0 < _compute_sa_sd_planning_hours i
  then some (_compute_sa_sd_planning_hours i) else none

theorem splitSaSd_aux (ty : List String) (pa : List (String → Bool)) :
    ∀ (l : List IssueMetrics) (ns : List IssueMetrics) (hs : List ℚ),
    l.foldl (fun acc issue =>
      if _is_sa_sd_issue issue ty pa then
        match issue.resolved with
        | some _ =>
          let h := _compute_sa_sd_planning_hours issue
          if 0 < h then (acc.1, acc.2 ++ [h]) else acc
        | none => acc
      else (acc.1 ++ [issue], acc.2)) (ns, hs) =
    (ns ++ l.filter (fun i => !(_is_sa_sd_issue i ty pa)),
     hs ++ l.filterMap (saSdContribution ty pa)) := by
  intro l
  induction l with
  | nil =>
    intro ns hs
    simp
  | cons i l' ih =>
    intro ns hs
    rw [List.foldl_cons]
    by_cases hb : _is_sa_sd_issue i ty pa = true
    · cases hres : i.resolved with
      | some r =>
        by_cases hh : 0 < _compute_sa_sd_planning_hours i
        · have hcontrib : saSdContribution ty pa i =
              some (_compute_sa_sd_planning_hours i) := by
            simp [saSdContribution, hb, hres, hh]
          simp only [hb, if_true, hres]
          rw [if_pos hh, ih]
          simp [List.filter_cons, hb, List.filterMap_cons, hcontrib]
        · have hcontrib : saSdContribution ty pa i = none := by
            simp [saSdContribution, hb, hres, hh]
          simp only [hb, if_true, hres]
          rw [if_neg hh, ih]
          simp [List.filter_cons, hb, List.filterMap_cons, hcontrib]
      | none =>
        have hcontrib : saSdContribution ty pa i = none := by
          simp [saSdContribution, hb, hres]
        simp only [hb, if_true, hres]
        rw [ih]
        simp [List.filter_cons, hb, List.filterMap_cons, hcontrib]
    · have hb' : _is_sa_sd_issue i ty pa = false := by simpa using hb
      have hcontrib : saSdContribution ty pa i = none := by
        simp [saSdContribution, hb']
      simp only [hb', Bool.false_eq_true, if_false]
      rw [ih]
      simp [List.filter_cons, hb', List.filterMap_cons, hcontrib]

/-- C5: the SA/SD merge rule.  The split loop keeps exactly the
non-SA/SD issues as normal issues and collects, for every SA/SD issue
that is resolved with positive active hours, that total as one sample;
the project block's cycle time and throughput are computed from the
normal issues only, with the SA/SD samples merged into `planning`; the
merge appends the SA/SD samples to the normal resolved positive planning
values and recomputes only the `planning` entry — every other phase's
entry is untouched — and with no SA/SD sample the cycle-time dict is
returned unchanged. -/
theorem c5_sa_sd_merge (ty : List String) (pa : List (String → Bool))
    (project_issues : List IssueMetrics) (phases : List Phase)
    (recent_days : ℕ) (now : ℚ) :
    (splitSaSd ty pa project_issues =
      (project_issues.filter (fun i => !(_is_sa_sd_issue i ty pa)),
       project_issues.filterMap (saSdContribution ty pa))) ∧
    ((projectEntry phases recent_days now true ty pa project_issues).1.cycle_time =
      _merge_sa_sd_into_planning
        (_compute_cycle_time_for_project
          (project_issues.filter (fun i => !(_is_sa_sd_issue i ty pa))) phases)
        (project_issues.filter (fun i => !(_is_sa_sd_issue i ty pa)))
        (project_issues.filterMap (saSdContribution ty pa))) ∧
    ((projectEntry phases recent_days now true ty pa project_issues).1.throughput =
      compute_throughput
        (project_issues.filter (fun i => !(_is_sa_sd_issue i ty pa)))
        recent_days now) ∧
    (∀ (ct : List (String × Stats)) (normal : List IssueMetrics) (hs : List ℚ),
      hs ≠ [] →
      _merge_sa_sd_into_planning ct normal hs =
        dset ct "planning" (compute_percentile_stats
          ((normal.filterMap (fun i =>
            if i.resolved.isSome then
              match dget i.phase_durations "planning" with
              | some h => if 0 < h then some h else none
              | none => none
            else none)) ++ hs))) ∧
    (∀ (ct : List (String × Stats)) (normal : List IssueMetrics),
      _merge_sa_sd_into_planning ct normal [] = ct) ∧
    (∀ (ct : List (String × Stats)) (normal : List IssueMetrics) (hs : List ℚ)
      (pid : String), pid ≠ "planning" →
      dget (_merge_sa_sd_into_planning ct normal hs) pid = dget ct pid) := by
  have hsplit : splitSaSd ty pa project_issues =
      (project_issues.filter (fun i => !(_is_sa_sd_issue i ty pa)),
       project_issues.filterMap (saSdContribution ty pa)) := by
    unfold splitSaSd
    rw [splitSaSd_aux ty pa project_issues [] []]
    simp
  refine ⟨hsplit, ?_, ?_, ?_, ?_, ?_⟩
  · show _merge_sa_sd_into_planning
        (_compute_cycle_time_for_project (splitSaSd ty pa project_issues).1 phases)
        (splitSaSd ty pa project_issues).1 (splitSaSd ty pa project_issues).2 = _
    rw [hsplit]
  · show compute_throughput (splitSaSd ty pa project_issues).1 recent_days now = _
    rw [hsplit]
  · intro ct normal hs hne
    simp [_merge_sa_sd_into_planning, hne]
  · intro ct normal
    rfl
  · intro ct normal hs pid hpid
    by_cases hhs : hs = []
    · subst hhs
      rfl
    · simp only [_merge_sa_sd_into_planning, hhs, if_false]
      rw [dget_dset]
      exact if_neg (fun h => hpid h.symm)

/-- The sample normal issue (24 dev hours, resolved) of the spec's SA/SD
example. -/
def sampleNormalIssue : IssueMetrics :=
  ⟨"P-1", "P", "Story", 0, some 0, [("dev", 24)], "Done",
   none, none, "", none, none, none⟩

/-- The sample SA/SD issue (48 planning hours, resolved) of the spec's
SA/SD example. -/
def sampleSaSdIssue : IssueMetrics :=
  ⟨"P-2", "P", "SA/SD", 0, some 0, [("planning", 48)], "Done",
   none, none, "", none, none, none⟩

/-- Witness for `c5_sa_sd_merge`, on the spec's own example: the SA/SD
issue is split off as a single 48h planning sample (2.0 days, one
sample), the normal `dev = 24` issue stays, and the merge leaves the
`dev` entry of the cycle-time dict untouched. -/
theorem c5_sa_sd_merge_witness :
    splitSaSd ["SA/SD"] [] [sampleNormalIssue, sampleSaSdIssue] =
      ([sampleNormalIssue], [48]) ∧
    (([48] : List ℚ) ≠ [] ∧
      _merge_sa_sd_into_planning [("dev", (⟨1, 1, 1⟩ : Stats))]
          [sampleNormalIssue] [48] =
        dset [("dev", ⟨1, 1, 1⟩)] "planning"
          (compute_percentile_stats ([] ++ [48]))) ∧
    ("dev" ≠ "planning" ∧
      dget (_merge_sa_sd_into_planning [("dev", (⟨1, 1, 1⟩ : Stats))]
          [sampleNormalIssue] [48]) "dev" =
        dget [("dev", ⟨1, 1, 1⟩)] "dev") ∧
    compute_percentile_stats [(48 : ℚ)] = ⟨2, 2, 1⟩ := by
  have hsplit := (c5_sa_sd_merge ["SA/SD"] [] [sampleNormalIssue, sampleSaSdIssue]
    samplePhases 30 0).1
  have hmerge := (c5_sa_sd_merge ["SA/SD"] [] [sampleNormalIssue, sampleSaSdIssue]
    samplePhases 30 0).2.2.2.1 [("dev", (⟨1, 1, 1⟩ : Stats))] [sampleNormalIssue]
    [48] (by simp)
  have hdev := (c5_sa_sd_merge ["SA/SD"] [] [sampleNormalIssue, sampleSaSdIssue]
    samplePhases 30 0).2.2.2.2.2 [("dev", (⟨1, 1, 1⟩ : Stats))] [sampleNormalIssue]
    [48] "dev" (by simp)
  refine ⟨?_, ⟨by simp, ?_⟩, ⟨by simp, hdev⟩, ?_⟩
  · rw [hsplit]
    simp [sampleNormalIssue, sampleSaSdIssue, _is_sa_sd_issue, saSdContribution,
      _compute_sa_sd_planning_hours, totalActiveHours, EXCLUDED_FROM_TOTAL,
      List.filter_cons, List.filterMap_cons, Prod.mk.injEq,
      (by norm_num : (0:ℚ) < 48)]
  · rw [hmerge]
    have hplanning : ([sampleNormalIssue].filterMap (fun i =>
        if i.resolved.isSome then
          match dget i.phase_durations "planning" with
          | some h => if 0 < h then some h else none
          | none => none
        else none)) = [] := by
      simp [sampleNormalIssue, List.filterMap_cons, dget]
    rw [hplanning]
  · have hstep : compute_percentile_stats [(48 : ℚ)] =
        ⟨round2 ((48 : ℚ) / 24), round2 ((48 : ℚ) / 24), 1⟩ := rfl
    rw [hstep]
    have : round2 ((48 : ℚ) / 24) = 2 := by
      norm_num [round2, roundHalfEven]
    rw [this]

-- ============================================================
-- C8: empty-input degeneracy — helper lemmas
-- ============================================================

theorem getD_of_all_entries {α : Type _} (d : List (String × α)) (k : String)
    (v : α) (hall : ∀ e ∈ d, e.2 = v) : (dget d k).getD v = v := by
  cases h : dget d k with
  | none => rfl
  | some w =>
    have := hall (k, w) (dget_mem d k w h)
    simpa using this

theorem ctfp_nil_entries (phases : List Phase) :
    ∀ e ∈ _compute_cycle_time_for_project [] phases, e.2 = (⟨0, 0, 0⟩ : Stats) := by
  intro e he
  unfold _compute_cycle_time_for_project at he
  rcases mem_dset _ _ _ _ he with h | h
  · rcases mem_foldl_dset Phase.id
        (fun ph => compute_percentile_stats
          (([] : List IssueMetrics).filter (fun i => i.resolved.isSome) |>.filterMap
            (fun i =>
              match dget i.phase_durations ph.id with
              | some h => if 0 < h then some h else none
              | none => none)))
        phases [] e h with h' | h'
    · simp at h'
    · obtain ⟨ph, _, rfl⟩ := h'
      rfl
  · subst h
    rfl

theorem grouped_nil_entries (cfg : Config) :
    ∀ e ∈ group_by_team_project cfg [], ∀ pe ∈ e.2, pe.2 = ([] : List IssueMetrics) := by
  intro e he pe hpe
  unfold group_by_team_project at he
  rw [List.foldl_nil] at he
  rcases mem_foldl_dset Team.id
      (fun team => team.jira_projects.foldl (fun m pk => dset m pk []) []) cfg.teams
      [] e he with h | h
  · simp at h
  · obtain ⟨team, _, rfl⟩ := h
    rcases mem_foldl_dset (fun pk : String => pk) (fun _ => ([] : List IssueMetrics))
        team.jira_projects [] pe hpe with h' | h'
    · simp at h'
    · obtain ⟨pk, _, rfl⟩ := h'
      rfl

theorem team_projects_nil (cfg : Config) (team_id : String) :
    ∀ pe ∈ (dget (group_by_team_project cfg []) team_id).getD [],
      pe.2 = ([] : List IssueMetrics) := by
  intro pe hpe
  cases h : dget (group_by_team_project cfg []) team_id with
  | none =>
    rw [h] at hpe
    simp at hpe
  | some inner =>
    rw [h] at hpe
    exact grouped_nil_entries cfg (team_id, inner)
      (dget_mem _ _ _ h) pe hpe

theorem prs_by_team_nil (cfg : Config) (team_id : String) :
    (dget (_group_prs_by_team cfg []) team_id).getD [] = [] := by
  apply getD_of_all_entries
  intro e he
  unfold _group_prs_by_team at he
  rw [List.foldl_nil] at he
  rcases mem_foldl_dset Team.id (fun _ => ([] : List PRMetrics)) cfg.teams [] e he with
    h | h
  · simp at h
  · obtain ⟨team, _, rfl⟩ := h
    rfl

theorem builds_by_team_nil (cfg : Config) (team_id : String) :
    (dget (_group_builds_by_team cfg []) team_id).getD [] = [] := by
  apply getD_of_all_entries
  intro e he
  unfold _group_builds_by_team at he
  rw [List.foldl_nil] at he
  rcases mem_foldl_dset Team.id (fun _ => ([] : List BuildResult)) cfg.teams [] e he with
    h | h
  · simp at h
  · obtain ⟨team, _, rfl⟩ := h
    rfl

theorem projectEntry_nil (phases : List Phase) (rd : ℕ) (now : ℚ) (has : Bool)
    (ty : List String) (pa : List (String → Bool)) :
    projectEntry phases rd now has ty pa [] =
      (⟨_compute_cycle_time_for_project [] phases,
        compute_throughput [] rd now, none⟩, [], []) := by
  unfold projectEntry
  have hsplit : (if has then splitSaSd ty pa [] else ([], [])) =
      (([] : List IssueMetrics), ([] : List ℚ)) := by
    cases has <;> rfl
  rw [hsplit]
  rfl

theorem selectBottleneck_zero_counts (phases : List Phase)
    (ct : List (String × Stats)) (h : ∀ e ∈ ct, e.2.count = 0) :
    selectBottleneck phases ct = none := by
  unfold selectBottleneck
  have hfold : ∀ (l : List Phase) (acc : Option String × ℚ),
      l.foldl (fun bm ph =>
        if EXCLUDED_FROM_TOTAL.contains ph.id then bm
        else
          match dget ct ph.id with
          | some st => if 0 < st.count ∧ bm.2 < st.p50 then (some ph.id, st.p50) else bm
          | none => bm) acc = acc := by
    intro l
    induction l with
    | nil => intro acc; rfl
    | cons ph phs ih =>
      intro acc
      rw [List.foldl_cons]
      by_cases hex : EXCLUDED_FROM_TOTAL.contains ph.id
      · rw [if_pos hex, ih]
      · rw [if_neg hex]
        cases hdg : dget ct ph.id with
        | none => exact ih acc
        | some st =>
          have hcnt : st.count = 0 := h (ph.id, st) (dget_mem _ _ _ hdg)
          have hstep : (match some st with
              | some st => if 0 < st.count ∧ acc.2 < st.p50 then (some ph.id, st.p50) else acc
              | none => acc) = acc :=
            if_neg (by
              intro hc
              rw [hcnt] at hc
              exact absurd hc.1 (lt_irrefl 0))
          rw [hstep]
          exact ih acc
  rw [hfold]

theorem team_fold_empty (phases : List Phase) (rd : ℕ) (now : ℚ) (has : Bool)
    (ty : List String) (pa : List (String → Bool)) :
    ∀ (tps : List (String × List IssueMetrics))
      (acc1 : List (String × ProjectOut)),
    (∀ pe ∈ tps, pe.2 = []) →
    tps.foldl (fun acc pe =>
      (dset acc.1 pe.1 (projectEntry phases rd now has ty pa pe.2).1,
       acc.2.1 ++ (projectEntry phases rd now has ty pa pe.2).2.1,
       acc.2.2 ++ (projectEntry phases rd now has ty pa pe.2).2.2))
      (acc1, ([] : List IssueMetrics), ([] : List ℚ)) =
    (tps.foldl (fun a pe =>
      dset a pe.1
        (⟨_compute_cycle_time_for_project [] phases,
          compute_throughput [] rd now, none⟩ : ProjectOut)) acc1, [], []) := by
  intro tps
  induction tps with
  | nil => intro acc1 _; rfl
  | cons pe tps ih =>
    intro acc1 hall
    have hpe : pe.2 = [] := hall pe (by simp)
    rw [List.foldl_cons, List.foldl_cons, hpe]
    rw [projectEntry_nil]
    exact ih _ (fun p hp => hall p (List.mem_cons_of_mem _ hp))

theorem aggregate_trends_entries (cfg : Config) (jira_data : List IssueMetrics)
    (github_data : Option (List PRMetrics))
    (jenkins_data : Option (List BuildResult)) (now : ℚ) :
    ∀ e ∈ (aggregate cfg jira_data github_data jenkins_data now).trends,
      ∃ team ∈ cfg.teams,
        e = (team.id, (teamEntryOf cfg jira_data github_data jenkins_data now team).2) := by
  intro e he
  rw [aggregate_trends_eq_fold] at he
  rcases mem_foldl_dset (fun team : Team => team.id)
      (fun team => (teamEntryOf cfg jira_data github_data jenkins_data now team).2)
      cfg.teams [] e he with h | h
  · simp at h
  · exact h

/-- The team entry produced by an empty run: every project block is the
degenerate one, the aggregated block has no PR/build/bottleneck data, and
the trends entry is the all-empty four-week block. -/
theorem teamEntryOf_empty (cfg : Config) (now : ℚ) (team : Team) :
    teamEntryOf cfg [] none none now team =
      (⟨team.name,
        ((dget (group_by_team_project cfg []) team.id).getD []).foldl
          (fun a pe => dset a pe.1
            (⟨_compute_cycle_time_for_project [] cfg.phases,
              compute_throughput [] (cfg.recent_days.getD 30) now, none⟩ : ProjectOut)) [],
        ⟨_compute_cycle_time_for_project [] cfg.phases,
         compute_throughput [] (cfg.recent_days.getD 30) now,
         none, none, none, []⟩⟩,
       ⟨_get_week_labels now 4, [none, none, none, none], [0, 0, 0, 0], none⟩) := by
  have hmerge : _merge_sa_sd_into_planning
      (_compute_cycle_time_for_project [] cfg.phases) [] [] =
      _compute_cycle_time_for_project [] cfg.phases := rfl
  have hpr : _compute_pr_metrics [] (cfg.large_pr_threshold.getD 400) = none := rfl
  have hbm : _compute_build_metrics [] now = none := rfl
  have hsel : selectBottleneck cfg.phases
      (_compute_cycle_time_for_project [] cfg.phases) = none :=
    selectBottleneck_zero_counts cfg.phases _
      (fun e he => by rw [ctfp_nil_entries cfg.phases e he])
  unfold teamEntryOf teamEntry
  simp only [Option.getD_none, prs_by_team_nil, builds_by_team_nil]
  rw [team_fold_empty _ _ _ _ _ _ _ _ (team_projects_nil cfg team.id)]
  simp only [hmerge, hpr, hbm, hsel, optStrTruthy]
  rfl

/-- C8: on an empty issue list with absent (`None`) PR and build inputs,
`aggregate` returns a structurally complete report: the summary block is
all zeros with every optional average `None`, every configured team has an
entry in both the `teams` and `trends` dictionaries, every team entry has
all-zero cycle-time counts, zero throughput, `None` `pr_metrics` and
`build_metrics`, no bottleneck phase and no bottleneck issues, every
per-project block is equally degenerate, and every trends entry is the
empty four-week block. -/
theorem c8_empty_input (cfg : Config) (now : ℚ) :
    (aggregate cfg [] none none now).summary =
      ⟨0, none, none, none, none⟩ ∧
    (∀ team ∈ cfg.teams,
      dcontains (aggregate cfg [] none none now).teams team.id = true ∧
      dcontains (aggregate cfg [] none none now).trends team.id = true) ∧
    (∀ e ∈ (aggregate cfg [] none none now).teams,
      (∀ ce ∈ e.2.aggregated.cycle_time, ce.2 = (⟨0, 0, 0⟩ : Stats)) ∧
      e.2.aggregated.throughput = ⟨0, none, [0, 0, 0, 0]⟩ ∧
      e.2.aggregated.pr_metrics = none ∧
      e.2.aggregated.build_metrics = none ∧
      e.2.aggregated.bottleneck_phase = none ∧
      e.2.aggregated.bottleneck_issues = [] ∧
      (∀ pe ∈ e.2.projects,
        (∀ ce ∈ pe.2.cycle_time, ce.2 = (⟨0, 0, 0⟩ : Stats)) ∧
        pe.2.throughput = ⟨0, none, [0, 0, 0, 0]⟩ ∧
        pe.2.pr_metrics = none)) ∧
    (∀ e ∈ (aggregate cfg [] none none now).trends,
      e.2 = ⟨_get_week_labels now 4, [none, none, none, none], [0, 0, 0, 0], none⟩) := by
  refine ⟨rfl, ?_, ?_, ?_⟩
  · intro team hteam
    constructor
    · rw [aggregate_teams_eq_fold]
      exact dcontains_foldl_dset_of_mem (fun t : Team => t.id) _ cfg.teams [] team hteam
    · rw [aggregate_trends_eq_fold]
      exact dcontains_foldl_dset_of_mem (fun t : Team => t.id) _ cfg.teams [] team hteam
  · intro e he
    obtain ⟨team, hteam, rfl⟩ := aggregate_teams_entries cfg [] none none now e he
    rw [teamEntryOf_empty cfg now team]
    refine ⟨?_, rfl, rfl, rfl, rfl, rfl, ?_⟩
    · exact fun ce hce => ctfp_nil_entries cfg.phases ce hce
    · intro pe hpe
      rcases mem_foldl_dset Prod.fst
          (fun _ => (⟨_compute_cycle_time_for_project [] cfg.phases,
            compute_throughput [] (cfg.recent_days.getD 30) now, none⟩ : ProjectOut))
          ((dget (group_by_team_project cfg []) team.id).getD []) [] pe hpe with h | h
      · simp at h
      · obtain ⟨b, _, rfl⟩ := h
        exact ⟨fun ce hce => ctfp_nil_entries cfg.phases ce hce, rfl, rfl⟩
  · intro e he
    obtain ⟨team, hteam, rfl⟩ := aggregate_trends_entries cfg [] none none now e he
    rw [teamEntryOf_empty cfg now team]

/-- Witness for `c8_empty_input`: on the sample configuration, the empty
run has team `t` present in both dictionaries and the all-zero summary. -/
theorem c8_empty_input_witness :
    sampleTeam ∈ sampleCfg.teams ∧
    (dcontains (aggregate sampleCfg [] none none 0).teams "t" = true ∧
     dcontains (aggregate sampleCfg [] none none 0).trends "t" = true) ∧
    (aggregate sampleCfg [] none none 0).summary = ⟨0, none, none, none, none⟩ :=
  ⟨by simp [sampleCfg, sampleTeam],
   (c8_empty_input sampleCfg 0).2.1 sampleTeam (by simp [sampleCfg]),
   (c8_empty_input sampleCfg 0).1⟩

/-- The normalised overrides table of `build_status_lookup` (missing key
and explicit null both give the empty table). -/
def effOverrides (cfg : StatusMappingCfg) :
    List (String × List (String × List String)) :=
  match cfg.overrides with
  | some (some o) => o
  | _ => []

/-- The override block `build_status_lookup` applies for a project. -/
def projectOverrideOf (cfg : StatusMappingCfg) (projectKey : String) :
    List (String × List String) :=
  (dget (effOverrides cfg) projectKey).getD []

/-- Writing a list of phase → labels entries into a status lookup, each
entry binding its labels to its phase id. -/
def writeEntries (l : List (String × List String))
    (init : List (String × String)) : List (String × String) :=
  l.foldl (fun lk pr => pr.2.foldl (fun l2 st => dset l2 st pr.1) lk) init

theorem dget_write_labels (ph : String) (ss : List String) :
    ∀ (lk : List (String × String)) (s : String),
    dget (ss.foldl (fun l st => dset l st ph) lk) s =
      if s ∈ ss then some ph else dget lk s := by
  induction ss with
  | nil => intro lk s; simp
  | cons a as ih =>
    intro lk s
    rw [List.foldl_cons, ih]
    by_cases hs : s ∈ as
    · simp [hs]
    · rw [dget_dset]
      by_cases ha : a = s
      · subst ha
        simp [hs]
      · have ha' : ¬ s = a := fun h => ha h.symm
        simp [hs, ha, ha', List.mem_cons]

theorem foldl_skip_eq_filter (ov : List (String × List String))
    (d : List (String × List String)) :
    ∀ init : List (String × String),
    d.foldl (fun lookup pr =>
      if dcontains ov pr.1 then lookup
      else pr.2.foldl (fun lk st => dset lk st pr.1) lookup) init =
    (d.filter (fun pr => !dcontains ov pr.1)).foldl
      (fun lookup pr => pr.2.foldl (fun lk st => dset lk st pr.1) lookup) init := by
  induction d with
  | nil => intro init; rfl
  | cons a t ih =>
    intro init
    by_cases h : dcontains ov a.1 = true
    · simp only [List.foldl_cons, List.filter_cons, h, if_true, Bool.not_true,
        Bool.false_eq_true, if_false]
      exact ih init
    · have h' : dcontains ov a.1 = false := by
        cases hx : dcontains ov a.1
        · rfl
        · exact absurd hx h
      simp only [List.foldl_cons, List.filter_cons, h', Bool.not_false, if_true,
        if_false]
      exact ih _

theorem build_status_lookup_eq (cfg : StatusMappingCfg) (p : String) :
    build_status_lookup cfg p =
      writeEntries (projectOverrideOf cfg p)
        (writeEntries (cfg.default.filter
          (fun pr => !dcontains (projectOverrideOf cfg p) pr.1)) []) := by
  have h1 : build_status_lookup cfg p =
      writeEntries (projectOverrideOf cfg p)
        (cfg.default.foldl (fun lookup pr =>
          if dcontains (projectOverrideOf cfg p) pr.1 then lookup
          else pr.2.foldl (fun lk st => dset lk st pr.1) lookup) []) := rfl
  rw [h1, foldl_skip_eq_filter]
  rfl

theorem dget_writeEntries_notmem (s : String) (l : List (String × List String)) :
    ∀ init, (∀ e ∈ l, s ∉ e.2) → dget (writeEntries l init) s = dget init s := by
  induction l with
  | nil => intro init _; rfl
  | cons a t ih =>
    intro init hnone
    rw [writeEntries, List.foldl_cons]
    have h2 := ih (a.2.foldl (fun l2 st => dset l2 st a.1) init)
      (fun e he => hnone e (List.mem_cons_of_mem _ he))
    rw [writeEntries] at h2
    rw [h2, dget_write_labels]
    rw [if_neg (hnone a (by simp))]

theorem dget_writeEntries_mem (s k : String) (l : List (String × List String)) :
    ∀ init, (∃ e ∈ l, s ∈ e.2) → (∀ e ∈ l, s ∈ e.2 → e.1 = k) →
    dget (writeEntries l init) s = some k := by
  induction l with
  | nil =>
    intro init hex _
    simp at hex
  | cons a t ih =>
    intro init hex hall
    rw [writeEntries, List.foldl_cons]
    by_cases ht : ∃ e ∈ t, s ∈ e.2
    · have h2 := ih (a.2.foldl (fun l2 st => dset l2 st a.1) init) ht
        (fun e he hs => hall e (List.mem_cons_of_mem _ he) hs)
      rw [writeEntries] at h2
      exact h2
    · have hsa : s ∈ a.2 := by
        rcases hex with ⟨e, he, hs⟩
        rcases List.mem_cons.mp he with h | h
        · rw [← h]; exact hs
        · exact absurd ⟨e, h, hs⟩ ht
      have h2 := dget_writeEntries_notmem s t
        (a.2.foldl (fun l2 st => dset l2 st a.1) init)
        (fun e he hs => ht ⟨e, he, hs⟩)
      rw [writeEntries] at h2
      rw [h2, dget_write_labels, if_pos hsa, hall a (by simp) hsa]

theorem dget_writeEntries_some (s ph : String) (l : List (String × List String)) :
    ∀ init, dget (writeEntries l init) s = some ph →
    (∃ e ∈ l, s ∈ e.2 ∧ e.1 = ph) ∨ dget init s = some ph := by
  induction l with
  | nil => intro init h; exact Or.inr h
  | cons a t ih =>
    intro init h
    rw [writeEntries, List.foldl_cons] at h
    have h' := ih (a.2.foldl (fun l2 st => dset l2 st a.1) init)
      (by rw [writeEntries]; exact h)
    rcases h' with ⟨e, he, hs, hk⟩ | h'
    · exact Or.inl ⟨e, List.mem_cons_of_mem _ he, hs, hk⟩
    · rw [dget_write_labels] at h'
      by_cases hsa : s ∈ a.2
      · rw [if_pos hsa] at h'
        exact Or.inl ⟨a, by simp, hsa, Option.some.inj h'⟩
      · rw [if_neg hsa] at h'
        exact Or.inr h'

set_option maxHeartbeats 800000 in
/-- C4: status-lookup override semantics (corrected).  The lookup starts
from the inverted default mapping; a missing `overrides` key or a null
override value behaves exactly as an empty override table.  Provided no
status label is shared between a project's override entries and provided
labels are not shared across the relevant phases, an override label maps
to its overriding phase, a default label of an overridden phase that is
reused nowhere else is absent from the result, a non-overridden phase
keeps its default labels, and every binding of the result originates
either from an override entry or from a non-overridden default phase.
(Without the sharing caveats the original claim is false, see the
counterexample.) -/
theorem c4_status_override (cfg : StatusMappingCfg) (p : String) :
    (build_status_lookup ⟨cfg.default, none⟩ p =
       build_status_lookup ⟨cfg.default, some (some [])⟩ p ∧
     build_status_lookup ⟨cfg.default, some none⟩ p =
       build_status_lookup ⟨cfg.default, some (some [])⟩ p) ∧
    (∀ e ∈ projectOverrideOf cfg p, ∀ s ∈ e.2,
      (∀ e' ∈ projectOverrideOf cfg p, s ∈ e'.2 → e'.1 = e.1) →
      dget (build_status_lookup cfg p) s = some e.1) ∧
    (∀ s : String,
      (∀ e' ∈ projectOverrideOf cfg p, s ∉ e'.2) →
      (∀ d' ∈ cfg.default, dcontains (projectOverrideOf cfg p) d'.1 = false →
        s ∉ d'.2) →
      dget (build_status_lookup cfg p) s = none) ∧
    (∀ e ∈ cfg.default, dcontains (projectOverrideOf cfg p) e.1 = false →
      ∀ s ∈ e.2,
      (∀ e' ∈ projectOverrideOf cfg p, s ∉ e'.2) →
      (∀ d' ∈ cfg.default, dcontains (projectOverrideOf cfg p) d'.1 = false →
        s ∈ d'.2 → d'.1 = e.1) →
      dget (build_status_lookup cfg p) s = some e.1) ∧
    (∀ s ph, dget (build_status_lookup cfg p) s = some ph →
      (∃ e ∈ projectOverrideOf cfg p, s ∈ e.2 ∧ e.1 = ph) ∨
      (∃ e ∈ cfg.default, dcontains (projectOverrideOf cfg p) e.1 = false ∧
        s ∈ e.2 ∧ e.1 = ph)) := by
  refine ⟨⟨rfl, rfl⟩, ?_, ?_, ?_, ?_⟩
  · intro e he s hs huniq
    rw [build_status_lookup_eq]
    exact dget_writeEntries_mem s e.1 _ _ ⟨e, he, hs⟩ huniq
  · intro s hov hdef
    rw [build_status_lookup_eq,
      dget_writeEntries_notmem s _ _ hov,
      dget_writeEntries_notmem s _ _ (fun d' hd' =>
        hdef d' (List.mem_filter.mp hd').1
          (by
            have := (List.mem_filter.mp hd').2
            simpa using this))]
    rfl
  · intro e he hnotov s hs hov hall
    rw [build_status_lookup_eq,
      dget_writeEntries_notmem s _ _ hov]
    refine dget_writeEntries_mem s e.1 _ _
      ⟨e, List.mem_filter.mpr ⟨he, by simp [hnotov]⟩, hs⟩ ?_
    intro d' hd' hsd
    exact hall d' (List.mem_filter.mp hd').1
      (by
        have := (List.mem_filter.mp hd').2
        simpa using this) hsd
  · intro s ph h
    rw [build_status_lookup_eq] at h
    rcases dget_writeEntries_some s ph _ _ h with ⟨e, he, hs, hk⟩ | h'
    · exact Or.inl ⟨e, he, hs, hk⟩
    · rcases dget_writeEntries_some s ph _ _ h' with ⟨e, he, hs, hk⟩ | h''
      · refine Or.inr ⟨e, (List.mem_filter.mp he).1, ?_, hs, hk⟩
        have := (List.mem_filter.mp he).2
        simpa using this
      · simp [dget] at h''

/-- A status-mapping configuration whose two phases share the default
label `X`, with a project override redefining `dev` for project `P`. -/
def c4Cfg : StatusMappingCfg :=
  ⟨[("dev", ["X"]), ("qa", ["X"])], some (some [("P", [("dev", ["Y"])])])⟩

/-- Counterexample to C4 as stated: `dev` is overridden for project `P`
and `X` is a default label of `dev`, yet `X` stays present in the result
(bound to `qa`, which shares the label), contradicting "the default
labels of that phase are absent from the result". -/
theorem c4_status_override_counterexample :
    dcontains (projectOverrideOf c4Cfg "P") "dev" = true ∧
    (("dev", ["X"]) : String × List String) ∈ c4Cfg.default ∧
    "X" ∈ (("dev", ["X"]) : String × List String).2 ∧
    build_status_lookup c4Cfg "P" = [("X", "qa"), ("Y", "dev")] ∧
    dget (build_status_lookup c4Cfg "P") "X" = some "qa" := by
  refine ⟨rfl, by simp [c4Cfg], by simp, rfl, rfl⟩

/-- A configuration with disjoint labels used by the C4 witness. -/
def c4WCfg : StatusMappingCfg :=
  ⟨[("dev", ["D"]), ("qa", ["Q"])], some (some [("P", [("dev", ["Y"])])])⟩

/-- Witness for `c4_status_override` on a concrete config: the override
label `Y` wins, the non-overridden phase `qa` keeps `Q`, and the
overridden phase's default label `D` disappears. -/
theorem c4_status_override_witness :
    dget (build_status_lookup c4WCfg "P") "Y" = some "dev" ∧
    dget (build_status_lookup c4WCfg "P") "Q" = some "qa" ∧
    dget (build_status_lookup c4WCfg "P") "D" = none :=
  ⟨(c4_status_override c4WCfg "P").2.1 ("dev", ["Y"]) (by decide) "Y" (by decide)
      (by decide),
   (c4_status_override c4WCfg "P").2.2.2.1 ("qa", ["Q"]) (by decide) (by decide)
      "Q" (by decide) (by decide) (by decide),
   (c4_status_override c4WCfg "P").2.2.1 "D" (by decide) (by decide)⟩

end Dashboard
